import Mathlib

/-!
Verification of the Remapped Package Map + Resolver core of the repository.

The embedding follows the TypeScript sources:
  * `remapped-npm-packages-map.ts` (the `RemappedNpmPackagesMap` class),
  * `npm-moudles-parsing.ts` (`parseNpmDirectImport`, `getNpmPackageName`),
  * `new-dependency-resolver.ts` (the `NewResolverImplementation` class).

The host is modelled as a POSIX system: `path.sep` is `/`, and the
source-name/fs-path conversions (`fsPathToSourceNamePath`,
`sourceNamePathToFsPath`) are the identity, exactly as they are on such a
host.  File-system reads (`readUtf8File`, `getAllFilesMatching`,
`findDependencyPackageJson`, `getFileTrueCase`, `exists`) and the external
analyzer and package-exports resolver are pure oracles packaged in records,
so every operation of the model is an explicit function of the oracle and
of the mutable state of the class it models.

JavaScript object identity (packages and resolved files are interned and
compared with `===` in the source) is modelled by an `id : Nat` field
allocated from a monotone counter, so two records are "the same object"
exactly when they are equal as records.

String primitives (`trim`, `split`, `startsWith`, `substring`, ...) are
re-implemented character-wise below so that they mirror the JavaScript
semantics used by the source on the ASCII inputs involved.
-/

set_option maxRecDepth 20000

/-! ## Character-wise string primitives (JavaScript semantics on ASCII) -/

/-- Model of `String.prototype.startsWith` restricted to the pattern list. -/
def listStartsWith : List Char → List Char → Bool
  | _, [] => true
  | [], _ :: _ => false
  | a :: as, b :: bs => a = b && listStartsWith as bs

/-- Model of `s.startsWith(p)`. -/
def strStartsWith (s p : String) : Bool :=
  listStartsWith s.toList p.toList

/-- Model of `s.endsWith(p)`. -/
def strEndsWith (s p : String) : Bool :=
  listStartsWith s.toList.reverse p.toList.reverse

/-- Model of `s.length` (ASCII, so code units and characters coincide). -/
def strLen (s : String) : Nat :=
  s.toList.length

/-- Model of `s.substring(n)`. -/
def strDrop (s : String) (n : Nat) : String :=
  String.mk (s.toList.drop n)

/-- Model of `s.includes(c)` for a single character. -/
def strContainsChar (s : String) (c : Char) : Bool :=
  s.toList.contains c

/-- Whether the character is trimmed by `String.prototype.trim` (the ASCII
whitespace actually present in the inputs: space, tab, CR, LF). -/
def isJsSpace (c : Char) : Bool :=
  c = ' ' || c = '\t' || c = '\r' || c = '\n'

/-- Model of `s.trim()`. -/
def strTrim (s : String) : String :=
  String.mk (((s.toList.dropWhile isJsSpace).reverse.dropWhile isJsSpace).reverse)

/-- Helper of `splitOnChar`: accumulates the current fragment in reverse. -/
def splitOnCharAux (sep : Char) : List Char → List Char → List String
  | [], acc => [String.mk acc.reverse]
  | c :: cs, acc =>
    if c = sep then String.mk acc.reverse :: splitOnCharAux sep cs []
    else splitOnCharAux sep cs (c :: acc)

/-- Model of `s.split(sep)` for a single-character separator. -/
def splitOnChar (s : String) (sep : Char) : List String :=
  splitOnCharAux sep s.toList []

/-- Concatenation with a separator, as used to rebuild split fragments. -/
def strIntercalate (sep : String) : List String → String
  | [] => ""
  | [x] => x
  | x :: y :: xs => x ++ sep ++ strIntercalate sep (y :: xs)

/-- Substring search over character lists: does some suffix start with the
pattern? -/
def listContainsSub (pat : List Char) : List Char → Bool
  | [] => listStartsWith [] pat
  | c :: cs => listStartsWith (c :: cs) pat || listContainsSub pat cs

/-- Model of `s.includes(sub)` (substring containment). -/
def containsSub (s sub : String) : Bool :=
  listContainsSub sub.toList s.toList

/-! ## POSIX path primitives (`node:path` on a POSIX host) -/

/-- Splits a path or source name on `/`. -/
def splitSegs (s : String) : List String :=
  splitOnChar s '/'

/-- Model of `path.dirname` (POSIX) on the shapes of path used by the
source: file paths with at least one separator, plus the degenerate cases
reached by the upward walk of `#tryToGenerateDirectLocalImportError`. -/
def posixDirname (s : String) : String :=
  match splitSegs s with
  | [] => "."
  | [_] => "."
  | parts =>
    let init := parts.dropLast
    if init.all (fun p => p = "") then "/" else strIntercalate "/" init

/-- Model of `path.join(a, b)` for the clean operands the source joins
(an absolute base and a forward relative path with no `.`/`..` segments). -/
def pathJoin (a b : String) : String :=
  if a = "" then b
  else if b = "" then a
  else if strEndsWith a "/" then a ++ b
  else a ++ "/" ++ b

/-- Model of `path.relative(base, p)` restricted to the only case the
source exercises: `p` equal to `base` or strictly below it.  (Every call
site passes a path produced by enumerating files under `base`.) -/
def pathRelativeUnder (base p : String) : String :=
  if p = base then ""
  else if strStartsWith p (base ++ "/") then strDrop p (strLen base + 1)
  else p

/-- One step of POSIX path normalization over segments; the accumulator is
the reversed stack of retained segments. -/
def normStep (acc : List String) (seg : String) : List String :=
  if seg = "" || seg = "." then acc
  else if seg = ".." then
    match acc with
    | [] => [".."]
    | a :: rest => if a = ".." then ".." :: a :: rest else rest
  else seg :: acc

/-- Modelled from the spec: `sourceNamePathJoin` of the missing
`source-name-utils.ts` module.  Section 4.2 specifies concatenation with
single `/` separators, collapsing runs; `.` and `..` segments are resolved
as `path.posix.join` does, which is what makes the escape check of section
4.4 step 4 meaningful.  A trailing `/` is preserved, as in `path.posix`. -/
def sourceNamePathJoin (parts : List String) : String :=
  let ne := parts.filter (fun p => p ≠ "")
  let joined := strIntercalate "/" ne
  let segs := (splitSegs joined).foldl normStep []
  let core := strIntercalate "/" segs.reverse
  if core = "" then (if strEndsWith joined "/" then "./" else ".")
  else if strEndsWith joined "/" then core ++ "/" else core

/-- Binary form of `sourceNamePathJoin`, matching the two-argument calls of
the resolver. -/
def snJoin2 (a b : String) : String :=
  sourceNamePathJoin [a, b]

/-! ## npm module parsing (`npm-moudles-parsing.ts`) -/

/-- First-character class of an npm package name in the source's pattern:
`[a-z0-9-~]`. -/
def isNpmNameStartChar (c : Char) : Bool :=
  ('a' ≤ c && c ≤ 'z') || ('0' ≤ c && c ≤ '9') || c = '-' || c = '~'

/-- Continuation class `[a-z0-9-~._]`, also the class of scope characters
after the `@`. -/
def isNpmNameChar (c : Char) : Bool :=
  isNpmNameStartChar c || c = '.' || c = '_'

/-- `[a-z0-9-~][a-z0-9-~._]*`: a valid unscoped package-name component. -/
def isValidNpmNamePart (s : String) : Bool :=
  match s.toList with
  | [] => false
  | c :: cs => isNpmNameStartChar c && cs.all isNpmNameChar

/-- `[a-z0-9-~._]+`: the scope text after the `@`. -/
def isValidScopeText (s : String) : Bool :=
  match s.toList with
  | [] => false
  | l => l.all isNpmNameChar

/-- Result of `parseNpmDirectImport`; `pkgName` is the `package` group of
the source's regular expression (it includes the `@scope/` part when
present) and `subpath` is the `path` group. -/
structure NpmDirectImport where
  pkgName : String
  subpath : String
deriving DecidableEq, Repr

/-- Model of `parseNpmDirectImport`, the anchored pattern
`(?<package>(?:@[a-z0-9-~._]+\/)?[a-z0-9-~][a-z0-9-~._]*)\/(?<path>.*)`.
Since the character classes exclude `/`, the scope is the text up to the
first `/`, the name runs to the next `/`, and the subpath is the rest. -/
def parseNpmDirectImport (directImport : String) : Option NpmDirectImport :=
  match splitSegs directImport with
  | [] => none
  | first :: rest =>
    if strStartsWith first "@" then
      match rest with
      | [] => none
      | name :: rest2 =>
        if rest2 ≠ [] && isValidScopeText (strDrop first 1) &&
            isValidNpmNamePart name then
          some ⟨first ++ "/" ++ name, strIntercalate "/" rest2⟩
        else none
    else
      if rest ≠ [] && isValidNpmNamePart first then
        some ⟨first, strIntercalate "/" rest⟩
      else none

/-- Model of `getNpmPackageName`. -/
def getNpmPackageName (npmModuleOrSuffix : String) : Option String :=
  (parseNpmDirectImport npmModuleOrSuffix).map NpmDirectImport.pkgName

/-! ## Remapping parsing

`parseRemappingString` lives in the `remappings.ts` module, which is not
part of the excerpted sources, so it is modelled from the spec. -/

/-- A raw remapping.  The source field `prefix` is called `pfx` here
(`prefix` is a reserved notation keyword in Lean). -/
structure RemappingV where
  context : String
  pfx : String
  target : String
deriving DecidableEq, Repr

/-- Modelled from the spec: `parseRemappingString` of the missing
`remappings.ts` module.  Grammar `[<context> ':'] <prefix> '=' <target>`:
the context is the longest prefix up to the first `:` occurring strictly
before the first `=`, the prefix is the text between that optional `:` and
the `=`, the target is the remainder; failure iff `=` is absent, the
prefix is empty, or the target is empty. -/
def parseRemappingString (s : String) : Option RemappingV :=
  match splitOnChar s '=' with
  | [] => none
  | [_] => none
  | beforeEq :: rest =>
    let target := strIntercalate "=" rest
    let cp :=
      match splitOnChar beforeEq ':' with
      | [] => ("", beforeEq)
      | [_] => ("", beforeEq)
      | c :: ps => (c, strIntercalate ":" ps)
    if cp.2 = "" || target = "" then none
    else some ⟨cp.1, cp.2, target⟩

/-! ## Data model of the package map (`remapped-npm-packages-map.ts`) -/

/-- Model of `ResolvedNpmPackage`.  `id` models JavaScript object identity
(each package object created by the map gets a fresh id); `exportsPresent`
models `exports !== undefined`, with the parsed `exports` value itself
left to the package-exports oracle. -/
structure Package where
  id : Nat
  name : String
  version : String
  rootFsPath : String
  rootSourceName : String
  exportsPresent : Bool
deriving DecidableEq, Repr

/-- The `package.json` fields the map reads. -/
structure PackageJsonV where
  name : String
  version : String
  exportsPresent : Bool
deriving DecidableEq, Repr

/-- The three members of `UserRemappingErrorType`, with the exact spelling
used by the source (including the `WIHTOUT` typo of the third member). -/
inductive UserRemappingErrorType where
  | REMAPPING_WITH_INVALID_SYNTAX
  | REMAPPING_TO_UNINSTALLED_PACKAGE
  | ILLEGAL_REMAPPING_WIHTOUT_SLASH_ENDINGS
deriving DecidableEq, Repr

/-- The string value of each enum member in the source: member name and
string coincide, typo included. -/
def UserRemappingErrorType.discriminant : UserRemappingErrorType → String
  | .REMAPPING_WITH_INVALID_SYNTAX => "REMAPPING_WITH_INVALID_SYNTAX"
  | .REMAPPING_TO_UNINSTALLED_PACKAGE => "REMAPPING_TO_UNINSTALLED_PACKAGE"
  | .ILLEGAL_REMAPPING_WIHTOUT_SLASH_ENDINGS =>
      "ILLEGAL_REMAPPING_WIHTOUT_SLASH_ENDINGS"

/-- Model of `UserRemappingError`. -/
structure UserRemappingError where
  type : UserRemappingErrorType
  remapping : String
  source : String
deriving DecidableEq, Repr

/-- The `targetNpmPackage` payload of a resolved user remapping. -/
structure TargetNpmPackage where
  installationName : String
  pkg : Package
deriving DecidableEq, Repr

/-- Model of `ResolvedUserRemapping` (field `prefix` renamed `pfx` as in
`RemappingV`). -/
structure ResolvedUserRemapping where
  context : String
  pfx : String
  target : String
  originalFormat : String
  source : String
  targetNpmPackage : Option TargetNpmPackage
deriving DecidableEq, Repr

/-- An entry of the inner installation map: the dependency package and the
generated remapping cached for the owner → installationName → dependency
edge. -/
structure EdgeV where
  pkg : Package
  generatedRemapping : RemappingV
deriving DecidableEq, Repr

/-- The mutable state of `RemappedNpmPackagesMap`.  `byName` models
`#packageByRootSourceName`, `inst` models `#installationMap` (keyed by the
owner package's object id), `ur` models `#userRemappingsPerPackage`,
`queue` models `#remappingsToResolve`.  `nextId` is the object-identity
allocator. -/
structure MapState where
  project : Package
  nextId : Nat
  byName : List (String × Package)
  inst : List (Nat × List (String × EdgeV))
  ur : List (Nat × List ResolvedUserRemapping)
  queue : List Package
deriving DecidableEq, Repr

/-! ### Association-list primitives modelling `Map.get` / `Map.set` -/

/-- `Map.prototype.get`. -/
def lookupA {β : Type} : List (String × β) → String → Option β
  | [], _ => none
  | (k, v) :: rest, key => if k = key then some v else lookupA rest key

/-- `Map.prototype.get` for `Nat` keys (object identities). -/
def lookupN {β : Type} : List (Nat × β) → Nat → Option β
  | [], _ => none
  | (k, v) :: rest, key => if k = key then some v else lookupN rest key

/-- `Map.prototype.set`: replace the binding if the key is present,
append it otherwise. -/
def setA {β : Type} : List (String × β) → String → β → List (String × β)
  | [], key, v => [(key, v)]
  | (k, w) :: rest, key, v =>
    if k = key then (key, v) :: rest else (k, w) :: setA rest key v

/-- `Map.prototype.set` for `Nat` keys. -/
def setN {β : Type} : List (Nat × β) → Nat → β → List (Nat × β)
  | [], key, v => [(key, v)]
  | (k, w) :: rest, key, v =>
    if k = key then (key, v) :: rest else (k, w) :: setN rest key v

/-! ### Map operations -/

/-- The file-system oracle the map consumes.  `getAllRemappingsTxtFiles`
models `getAllFilesMatching(rootFsPath, basename = remappings.txt,
skipping node_modules subtrees)`; following the spec it must list files in
the deterministic discovery order (nested directories before the package
root, sorted walks).  The other fields model `findDependencyPackageJson`,
`readJsonFile` and `readUtf8File`. -/
structure MapFs where
  findDependencyPackageJson : String → String → Option String
  readPackageJson : String → PackageJsonV
  getAllRemappingsTxtFiles : String → List String
  readUtf8File : String → String

/-- Model of `#insertNewPackage`: register the package in the installation
map and the root-source-name index, and enqueue it; its user-remapping
entry is intentionally not created.  `nextId` advances because the caller
just allocated the package object. -/
def insertNewPackage (m : MapState) (p : Package) : MapState :=
  { m with
    inst := setN m.inst p.id []
    byName := setA m.byName p.rootSourceName p
    queue := m.queue ++ [p]
    nextId := m.nextId + 1 }

/-- Model of `#generateNpmRemapping`. -/
def generateNpmRemapping (frm : Package) (installationName : String)
    (toPkg : Package) : RemappingV :=
  ⟨frm.rootSourceName ++ "/", installationName ++ "/",
   toPkg.rootSourceName ++ "/"⟩

/-- Model of `#isPackageJsonFromMonorepo`. -/
def isPackageJsonFromMonorepo (projectRootFsPath packageJsonFsPath : String) :
    Bool :=
  !containsSub packageJsonFsPath "node_modules" &&
  !strStartsWith packageJsonFsPath (projectRootFsPath ++ "/")

/-- Model of `#npmPackageToRootSourceName`. -/
def npmPackageToRootSourceName (name version : String) : String :=
  "npm/" ++ name ++ "@" ++ version

/-- Edge lookup in the installation map. -/
def lookupEdge (m : MapState) (ownerId : Nat) (installationName : String) :
    Option EdgeV :=
  match lookupN m.inst ownerId with
  | none => none
  | some deps => lookupA deps installationName

/-- Sets an edge in the owner's inner installation map. -/
def setEdge (m : MapState) (ownerId : Nat) (installationName : String)
    (e : EdgeV) : MapState :=
  { m with
    inst :=
      setN m.inst ownerId
        (setA ((lookupN m.inst ownerId).getD []) installationName e) }

/-- The lookup-or-create tail of `#resolveDependencyByInstallationName`
after the dependency's `package.json` has been read and its version and
root source name computed: reuse the package interned under that root
source name if any, and otherwise create, insert and enqueue a fresh
package; in both cases record the edge with its generated remapping. -/
def loadDependencyPackage (m : MapState) (frm : Package)
    (installationName : String) (pj : PackageJsonV) (pjPath : String)
    (version rootSourceName : String) : MapState × (Package × RemappingV) :=
  match lookupA m.byName rootSourceName with
  | some existing =>
    let e : EdgeV :=
      ⟨existing, generateNpmRemapping frm installationName existing⟩
    (setEdge m frm.id installationName e, (existing, e.generatedRemapping))
  | none =>
    let newPkg : Package :=
      ⟨m.nextId, pj.name, version, posixDirname pjPath, rootSourceName,
       pj.exportsPresent⟩
    let e : EdgeV :=
      ⟨newPkg, generateNpmRemapping frm installationName newPkg⟩
    (setEdge (insertNewPackage m newPkg) frm.id installationName e,
     (newPkg, e.generatedRemapping))

/-- Model of the private `#resolveDependencyByInstallationName`: reuse the
edge if present; otherwise locate the dependency `package.json`, compute
its version (the `"local"` sentinel for monorepo packages) and root source
name, and hand over to `loadDependencyPackage`.  When the owner is absent
from the installation map (the source asserts against this) the state is
returned unchanged with no result. -/
def resolveDependencyByInstallationName (mfs : MapFs) (m : MapState)
    (frm : Package) (installationName : String) :
    MapState × Option (Package × RemappingV) :=
  match lookupN m.inst frm.id with
  | none => (m, none)
  | some deps =>
    match lookupA deps installationName with
    | some e => (m, some (e.pkg, e.generatedRemapping))
    | none =>
      match mfs.findDependencyPackageJson frm.rootFsPath installationName with
      | none => (m, none)
      | some pjPath =>
        let pj := mfs.readPackageJson pjPath
        let version :=
          if isPackageJsonFromMonorepo m.project.rootFsPath pjPath then "local"
          else pj.version
        let rootSourceName :=
          if pjPath = pathJoin m.project.rootFsPath "package.json" then
            "project"
          else npmPackageToRootSourceName pj.name version
        let r :=
          loadDependencyPackage m frm installationName pj pjPath version
            rootSourceName
        (r.1, some r.2)

/-- Model of `#updateRemappingsTxFragment`. -/
def updateRemappingsTxFragment (frm : Package)
    (relativeFsPathToRemappingsFile remappingFragment : String) : String :=
  if strStartsWith remappingFragment "npm/" then remappingFragment
  else
    sourceNamePathJoin
      [frm.rootSourceName ++ "/",
       if strEndsWith relativeFsPathToRemappingsFile "/" then
         relativeFsPathToRemappingsFile
       else relativeFsPathToRemappingsFile ++ "/",
       remappingFragment]

/-- Appends a resolved user remapping to the package's list (the
`npmPackageRemappings.push(...)` calls). -/
def pushUR (m : MapState) (pid : Nat) (r : ResolvedUserRemapping) : MapState :=
  { m with ur := setN m.ur pid ((lookupN m.ur pid).getD [] ++ [r]) }

/-- Sets the user-remapping list of a package (the
`#userRemappingsPerPackage.set(npmPackage, [])` of the drain loop). -/
def setUR (m : MapState) (pid : Nat) (l : List ResolvedUserRemapping) :
    MapState :=
  { m with ur := setN m.ur pid l }

/-- Model of `#validateAndResolveUserRemapping` for one raw (already
trimmed, non-empty, non-comment) line: parse, check the slash endings,
rewrite a local remapping, or strip `node_modules/`, drop the no-op case,
extract the installation name and resolve the dependency for an npm
remapping.  Returns the new map state and the error for this line, if
any. -/
def validateAndResolveUserRemapping (mfs : MapFs) (m : MapState)
    (npmPackage : Package) (sourceOfTheRemapping remappingString : String) :
    MapState × Option UserRemappingError :=
  match parseRemappingString remappingString with
  | none =>
    (m, some ⟨.REMAPPING_WITH_INVALID_SYNTAX, remappingString,
              sourceOfTheRemapping⟩)
  | some remapping =>
    if (strLen remapping.context > 0 && !strEndsWith remapping.context "/") ||
        !strEndsWith remapping.pfx "/" || !strEndsWith remapping.target "/" then
      (m, some ⟨.ILLEGAL_REMAPPING_WIHTOUT_SLASH_ENDINGS, remappingString,
                sourceOfTheRemapping⟩)
    else
      let relativeFsPathToRemappingsFile :=
        pathRelativeUnder npmPackage.rootFsPath
          (posixDirname sourceOfTheRemapping)
      if !strStartsWith remapping.target "node_modules/" then
        (pushUR m npmPackage.id
          ⟨updateRemappingsTxFragment npmPackage
             relativeFsPathToRemappingsFile remapping.context,
           remapping.pfx,
           updateRemappingsTxFragment npmPackage
             relativeFsPathToRemappingsFile remapping.target,
           remappingString, sourceOfTheRemapping, none⟩, none)
      else
        let target := strDrop remapping.target (strLen "node_modules/")
        if remapping.pfx = target then (m, none)
        else
          match getNpmPackageName target with
          | none =>
            (m, some ⟨.REMAPPING_WITH_INVALID_SYNTAX, remappingString,
                      sourceOfTheRemapping⟩)
          | some installationName =>
            match resolveDependencyByInstallationName mfs m npmPackage
                installationName with
            | (m1, none) =>
              (m1, some ⟨.REMAPPING_TO_UNINSTALLED_PACKAGE, remappingString,
                         sourceOfTheRemapping⟩)
            | (m1, some (dep, _gen)) =>
              (pushUR m1 npmPackage.id
                ⟨updateRemappingsTxFragment npmPackage
                   relativeFsPathToRemappingsFile remapping.context,
                 remapping.pfx,
                 dep.rootSourceName ++ strDrop target (strLen installationName),
                 remappingString, sourceOfTheRemapping,
                 some ⟨installationName, dep⟩⟩, none)

/-- The line preprocessing of
`#validateAndResolveUserRemappingsOfAnExistingPackage`: split on newlines,
trim, drop empty lines and `#` comments. -/
def rawUserRemappingLines (contents : String) : List String :=
  (((splitOnChar contents '\n').map strTrim).filter (fun l => l ≠ "")).filter
    (fun l => !strStartsWith l "#")

/-- Processes the lines of one remappings.txt file in order, threading the
map state and collecting the per-line errors in order. -/
def processLines (mfs : MapFs) (npmPackage : Package) (src : String) :
    MapState → List String → MapState × List UserRemappingError
  | m, [] => (m, [])
  | m, l :: ls =>
    let step := validateAndResolveUserRemapping mfs m npmPackage src l
    let rest := processLines mfs npmPackage src step.1 ls
    (rest.1, step.2.toList ++ rest.2)

/-- Processes the remappings.txt files of one package in discovery order
(the body of `#validateAndResolveUserRemappingsOfAnExistingPackage`). -/
def processFiles (mfs : MapFs) (npmPackage : Package) :
    MapState → List String → MapState × List UserRemappingError
  | m, [] => (m, [])
  | m, f :: rest =>
    let step :=
      processLines mfs npmPackage f m (rawUserRemappingLines (mfs.readUtf8File f))
    let restR := processFiles mfs npmPackage step.1 rest
    (restR.1, step.2 ++ restR.2)

/-- Model of `#resolveAnyRemainingRemappings`: drain the queue FIFO,
setting each package's user-remapping list to `[]` before processing its
remappings.txt files.  The fuel bounds the number of loop iterations;
`none` means the fuel ran out (any fuel at least the number of packages
ever enqueued suffices). -/
def resolveAnyRemainingRemappings (mfs : MapFs) :
    Nat → MapState → Option (MapState × List UserRemappingError)
  | 0, m => if m.queue = [] then some (m, []) else none
  | fuel + 1, m =>
    match m.queue with
    | [] => some (m, [])
    | p :: _ =>
      let m1 := setUR m p.id []
      let step :=
        processFiles mfs p m1 (mfs.getAllRemappingsTxtFiles p.rootFsPath)
      let m2 := { step.1 with queue := step.1.queue.drop 1 }
      match resolveAnyRemainingRemappings mfs fuel m2 with
      | none => none
      | some (m3, rest) => some (m3, step.2 ++ rest)

/-- Model of `getUserRemappings` (the source asserts that the entry is
present; absent entries read as `[]`). -/
def getUserRemappings (m : MapState) (npmPackage : Package) :
    List ResolvedUserRemapping :=
  (lookupN m.ur npmPackage.id).getD []

/-- The state built by the private constructor from the project package. -/
def initialMapState (projectPackage : Package) : MapState :=
  insertNewPackage
    { project := projectPackage, nextId := projectPackage.id, byName := [],
      inst := [], ur := [], queue := [] }
    projectPackage

/-- Result of `RemappedNpmPackagesMap.create`. -/
inductive CreateResult where
  | ok (m : MapState)
  | err (errs : List UserRemappingError)
  | outOfFuel
deriving DecidableEq, Repr

/-- Model of `RemappedNpmPackagesMap.create`: read the project
`package.json`, build the project package with root source name
`"project"`, insert and enqueue it, and drain the queue; construction
fails iff any user-remapping error was collected. -/
def createMap (mfs : MapFs) (projectRootPath : String) (fuel : Nat) :
    CreateResult :=
  let pj := mfs.readPackageJson (pathJoin projectRootPath "package.json")
  let projectPackage : Package :=
    ⟨0, pj.name, pj.version, projectRootPath, "project", pj.exportsPresent⟩
  match resolveAnyRemainingRemappings mfs fuel (initialMapState projectPackage) with
  | none => .outOfFuel
  | some (m, errs) => if errs = [] then .ok m else .err errs

/-- The user remappings of the project package after a successful
construction (the observation the concrete spec scenarios are about). -/
def projectUserRemappingsAfterCreate (mfs : MapFs) (projectRootPath : String)
    (fuel : Nat) : Option (List ResolvedUserRemapping) :=
  match createMap mfs projectRootPath fuel with
  | .ok m => some (getUserRemappings m m.project)
  | _ => none

/-! ## Resolver (`new-dependency-resolver.ts`) -/

/-- The `content` of a resolved file: text plus the analyzer's output. -/
structure FileContentV where
  text : String
  importPaths : List String
  versionPragmas : List String
deriving DecidableEq, Repr

/-- Model of a `ResolvedFile` (project or npm variant, `isNpm`
distinguishing them).  `id` models object identity of the interned
implementation object. -/
structure ResolvedFileV where
  id : Nat
  sourceName : String
  fsPath : String
  content : FileContentV
  pkg : Package
  isNpm : Bool
deriving DecidableEq, Repr

/-- The oracle record of the resolver: the map's file-system oracle, plus
`getFileTrueCase` (`some` true-case relative path, or `none` when the file
does not exist), the Solidity analyzer, the `resolve.exports` resolver
restricted to the `"default"` condition (keyed by the package object's
identity; `none` models a rejection), and the `exists` check used by the
direct-local fallback walk. -/
structure ResolverFs where
  mapFs : MapFs
  getFileTrueCase : String → String → Option String
  analyzeImports : String → List String
  analyzePragmas : String → List String
  resolvePackageExports : Nat → String → Option String
  fileExists : String → Bool

/-- The mutable state of `NewResolverImplementation`: the package map and
the `#resolvedFileBySourceName` intern table, plus the object-identity
allocator for resolved files. -/
structure ResolverState where
  projectRoot : String
  map : MapState
  files : List (String × ResolvedFileV)
  nextFileId : Nat
deriving DecidableEq, Repr

/-- Modelled from the spec: `selectBestRemapping` of the missing
`remappings.ts` module.  Consider only remappings whose context is a
prefix of the source name of `from` (the empty context matches
everything) and whose prefix is a prefix of the direct import; pick the
longest context, break ties by longest prefix, break further ties by the
most recently parsed remapping (so a later list entry wins all ties). -/
def selectBestRemapping (fromSourceName directImport : String)
    (remappings : List ResolvedUserRemapping) :
    Option ResolvedUserRemapping :=
  remappings.foldl
    (fun best r =>
      if strStartsWith fromSourceName r.context &&
          strStartsWith directImport r.pfx then
        match best with
        | none => some r
        | some b =>
          if strLen r.context > strLen b.context ||
              (strLen r.context = strLen b.context &&
               strLen r.pfx ≥ strLen b.pfx) then
            some r
          else some b
      else best)
    none

/-- Modelled from the spec: `applyValidRemapping` replaces the matched
prefix of the direct import with the remapping's target. -/
def applyValidRemapping (directImport : String) (r : ResolvedUserRemapping) :
    String :=
  r.target ++ strDrop directImport (strLen r.pfx)

/-- The remapping carried by a successful resolution: either a resolved
user remapping or a generated one. -/
inductive CarriedRemapping where
  | user (r : ResolvedUserRemapping)
  | gen (r : RemappingV)
deriving DecidableEq, Repr

/-- The members of `ImportResolutionErrorType` together with the error
payloads the claims are about (`fromFsPath`, `importPath`, and
`installationName`, `remappingErrors`, `subpath`, `correctCasing` where
the source carries them; the remaining reference metadata of
`ResolvedFileReference` is elided). -/
inductive ImportErr where
  | IMPORT_WITH_WINDOWS_PATH_SEPARATORS (fromFsPath importPath : String)
  | ILLEGAL_RELATIVE_IMPORT (fromFsPath importPath : String)
  | IMPORT_DOESNT_EXIST (fromFsPath importPath subpath : String)
  | IMPORT_INVALID_CASING (fromFsPath importPath subpath correctCasing : String)
  | IMPORT_WITH_INVALID_NPM_SYNTAX (fromFsPath importPath : String)
  | IMPORT_OF_UNINSTALLED_PACKAGE
      (fromFsPath importPath installationName : String)
  | IMPORT_OF_NPM_PACKAGE_WITH_REMAPPING_ERRORS
      (fromFsPath importPath : String)
      (remappingErrors : List UserRemappingError)
  | IMPORT_OF_NON_EXPORTED_NPM_FILE (fromFsPath importPath subpath : String)
deriving DecidableEq, Repr

/-- The outcome of `#resolveImport`.  `placeholderRelativeImport` models
the `return 1 as any` placeholder of `#resolveRelativeImport` (the value
is not a result object at all); `thrown msg` models a thrown
`new Error(msg)`; `modelFuelOut` only signals that the model's fuel for a
loop ran out. -/
inductive ImportOutcome where
  | ok (file : ResolvedFileV) (remapping : Option CarriedRemapping)
  | err (e : ImportErr)
  | placeholderRelativeImport
  | thrown (msg : String)
  | modelFuelOut
deriving DecidableEq, Repr

/-- Model of `#resolveUserRemappedImport`. -/
def resolveUserRemappedImport (fs : ResolverFs) (st : ResolverState)
    (frm : ResolvedFileV) (importPath directImport : String)
    (remapping : ResolvedUserRemapping) : ResolverState × ImportOutcome :=
  let remappedDirectImport := applyValidRemapping directImport remapping
  let sourceName := remappedDirectImport
  match lookupA st.files remappedDirectImport with
  | some existing => (st, .ok existing (some (.user remapping)))
  | none =>
    let fromNpmPackage := if frm.isNpm then frm.pkg else st.map.project
    let targetNpmPackage :=
      match remapping.targetNpmPackage with
      | some t => t.pkg
      | none => fromNpmPackage
    let relativeSourceNamePath :=
      if targetNpmPackage.id = st.map.project.id then sourceName
      else strDrop sourceName (strLen targetNpmPackage.rootSourceName + 1)
    let relativeFsPath := relativeSourceNamePath
    match fs.getFileTrueCase targetNpmPackage.rootFsPath relativeFsPath with
    | none =>
      (st, .err (.IMPORT_DOESNT_EXIST frm.fsPath importPath
                   relativeSourceNamePath))
    | some trueCasePath =>
      if trueCasePath ≠ relativeFsPath then
        (st, .err (.IMPORT_INVALID_CASING frm.fsPath importPath
                     relativeSourceNamePath trueCasePath))
      else
        let fsPath := pathJoin targetNpmPackage.rootFsPath relativeFsPath
        let text := fs.mapFs.readUtf8File fsPath
        let file : ResolvedFileV :=
          ⟨st.nextFileId, sourceName, fsPath,
           ⟨text, fs.analyzeImports text, fs.analyzePragmas text⟩,
           targetNpmPackage, targetNpmPackage.id ≠ st.map.project.id⟩
        ({ st with
            files := setA st.files sourceName file
            nextFileId := st.nextFileId + 1 },
         .ok file (some (.user remapping)))

/-- The remapping carried by a successful npm resolution: a targeted
`generateRemappingIntoNpmFile` remapping when package exports changed the
subpath or for the special `hardhat/console.sol`, and the edge's generated
remapping otherwise. -/
def chosenNpmRemapping (directImport : String)
    (fromNpmPackage dependency : Package) (generatedRemapping : RemappingV)
    (subpath : String) (resolvedSubpath : Option String) : CarriedRemapping :=
  if (match resolvedSubpath with
      | some rs => rs ≠ subpath
      | none => false : Bool) ||
      directImport = "hardhat/console.sol" then
    .gen ⟨fromNpmPackage.rootSourceName ++ "/", directImport,
          snJoin2 dependency.rootSourceName (resolvedSubpath.getD subpath)⟩
  else .gen generatedRemapping

/-- The tail of `#resolveImportThroughNpm` after the dependency has been
loaded, its remappings drained without errors, and package exports
resolved: build the new source name, choose the carried remapping, consult
the intern table, validate the path on disk, and build and intern the
resolved file. -/
def finishNpmResolution (fs : ResolverFs) (st2 : ResolverState)
    (frm : ResolvedFileV) (importPath directImport : String)
    (fromNpmPackage dependency : Package) (generatedRemapping : RemappingV)
    (subpath : String) (resolvedSubpath : Option String) :
    ResolverState × ImportOutcome :=
  let sourceName :=
    snJoin2 dependency.rootSourceName (resolvedSubpath.getD subpath)
  let remapping : CarriedRemapping :=
    chosenNpmRemapping directImport fromNpmPackage dependency
      generatedRemapping subpath resolvedSubpath
  match lookupA st2.files sourceName with
  | some existing => (st2, .ok existing (some remapping))
  | none =>
    let relativePath := resolvedSubpath.getD subpath
    match fs.getFileTrueCase dependency.rootFsPath relativePath with
    | none =>
      (st2, .err (.IMPORT_DOESNT_EXIST frm.fsPath importPath subpath))
    | some trueCasePath =>
      if trueCasePath ≠ relativePath then
        (st2, .err (.IMPORT_INVALID_CASING frm.fsPath importPath subpath
                      trueCasePath))
      else
        let fsPath := pathJoin dependency.rootFsPath relativePath
        let text := fs.mapFs.readUtf8File fsPath
        let file : ResolvedFileV :=
          ⟨st2.nextFileId, sourceName, fsPath,
           ⟨text, fs.analyzeImports text, fs.analyzePragmas text⟩,
           dependency, dependency.id ≠ st2.map.project.id⟩
        ({ st2 with
            files := setA st2.files sourceName file
            nextFileId := st2.nextFileId + 1 },
         .ok file (some remapping))

/-- Model of `#resolveImportThroughNpm`, including the public
`resolveDependencyByInstallationName` it calls (the private resolution
followed by draining the queue, with the collected remapping errors
attached).  The fuel feeds the drain loop. -/
def resolveImportThroughNpm (fs : ResolverFs) (fuel : Nat)
    (st : ResolverState) (frm : ResolvedFileV)
    (importPath directImport : String) : ResolverState × ImportOutcome :=
  match parseNpmDirectImport directImport with
  | none =>
    (st, .err (.IMPORT_WITH_INVALID_NPM_SYNTAX frm.fsPath importPath))
  | some parsed =>
    let fromNpmPackage := if frm.isNpm then frm.pkg else st.map.project
    let installationName := parsed.pkgName
    match resolveDependencyByInstallationName fs.mapFs st.map fromNpmPackage
        installationName with
    | (m1, none) =>
      ({ st with map := m1 },
       .err (.IMPORT_OF_UNINSTALLED_PACKAGE frm.fsPath importPath
               installationName))
    | (m1, some (dependency, generatedRemapping)) =>
      match resolveAnyRemainingRemappings fs.mapFs fuel m1 with
      | none => ({ st with map := m1 }, .modelFuelOut)
      | some (m2, errs) =>
        let st2 := { st with map := m2 }
        if errs ≠ [] then
          (st2, .err (.IMPORT_OF_NPM_PACKAGE_WITH_REMAPPING_ERRORS frm.fsPath
                        importPath errs))
        else
          let subpath := parsed.subpath
          if dependency.exportsPresent then
            match fs.resolvePackageExports dependency.id subpath with
            | none =>
              (st2, .err (.IMPORT_OF_NON_EXPORTED_NPM_FILE frm.fsPath
                            importPath subpath))
            | some rs =>
              finishNpmResolution fs st2 frm importPath directImport
                fromNpmPackage dependency generatedRemapping subpath (some rs)
          else
            finishNpmResolution fs st2 frm importPath directImport
              fromNpmPackage dependency generatedRemapping subpath none

/-- Result of the upward walk of `#tryToGenerateDirectLocalImportError`:
`thrown` models the `throw new Error("Invalid direct import")` placeholder
reached when an ancestor holds a file at the literal import path,
`nothingFound` the `return undefined`. -/
inductive WalkResult where
  | thrown
  | nothingFound
  | fuelOut
deriving DecidableEq, Repr

/-- Model of the `while (baseDir.startsWith(rootFsPath))` loop of
`#tryToGenerateDirectLocalImportError`; the fuel bounds the iterations
(the path depth of the starting directory always suffices). -/
def directLocalWalk (fs : ResolverFs) (rootFsPath importPath : String) :
    Nat → String → WalkResult
  | 0, _ => .fuelOut
  | fuel + 1, baseDir =>
    if strStartsWith baseDir rootFsPath then
      if fs.fileExists (pathJoin baseDir importPath) then .thrown
      else directLocalWalk fs rootFsPath importPath fuel (posixDirname baseDir)
    else .nothingFound

/-- Whether the npm failure triggers the direct-local fallback diagnostic. -/
def isUninstalledOrInvalidNpmSyntax : ImportErr → Bool
  | .IMPORT_OF_UNINSTALLED_PACKAGE _ _ _ => true
  | .IMPORT_WITH_INVALID_NPM_SYNTAX _ _ => true
  | _ => false

/-- Model of `#resolveImport` (hence of the public `resolveImport`, whose
mutex is vacuous in this sequential model): the windows-separator check,
the relative/direct classification, the escape check for relative
imports, the best-user-remapping selection, and the dispatch to the
relative placeholder, the user-remapped resolution, or the npm resolution
with the direct-local fallback diagnostic. -/
def resolveImport (fs : ResolverFs) (fuel : Nat) (st : ResolverState)
    (frm : ResolvedFileV) (importPath : String) :
    ResolverState × ImportOutcome :=
  if strContainsChar importPath '\\' then
    (st, .err (.IMPORT_WITH_WINDOWS_PATH_SEPARATORS frm.fsPath importPath))
  else
    let isRelativeImport :=
      strStartsWith importPath "./" || strStartsWith importPath "../"
    let directImport :=
      if isRelativeImport then snJoin2 (posixDirname frm.sourceName) importPath
      else importPath
    if isRelativeImport &&
        !strStartsWith directImport frm.pkg.rootSourceName then
      (st, .err (.ILLEGAL_RELATIVE_IMPORT frm.fsPath importPath))
    else
      let packageUserRemappings := getUserRemappings st.map frm.pkg
      let bestUserRemapping :=
        selectBestRemapping frm.sourceName directImport packageUserRemappings
      if isRelativeImport then
        match bestUserRemapping with
        | some _ => (st, .thrown "Invalid relative import and remapping")
        | none => (st, .placeholderRelativeImport)
      else
        match bestUserRemapping with
        | some remapping =>
          resolveUserRemappedImport fs st frm importPath directImport remapping
        | none =>
          let npmResult :=
            resolveImportThroughNpm fs fuel st frm importPath directImport
          match npmResult.2 with
          | .err e =>
            if isUninstalledOrInvalidNpmSyntax e then
              match directLocalWalk fs frm.pkg.rootFsPath importPath
                  (strLen frm.fsPath + 2) (posixDirname frm.fsPath) with
              | .thrown => (npmResult.1, .thrown "Invalid direct import")
              | .nothingFound => (npmResult.1, .err e)
              | .fuelOut => (npmResult.1, .modelFuelOut)
            else (npmResult.1, .err e)
          | _ => npmResult

/-- The closed error union of `resolveProjectFile`; it has exactly these
three members and in particular no casing variant. -/
inductive ProjectRootError where
  | PROJECT_ROOT_FILE_NOT_IN_PROJECT (absoluteFilePath : String)
  | PROJECT_ROOT_FILE_DOESNT_EXIST (absoluteFilePath : String)
  | PROJECT_ROOT_FILE_IN_NODE_MODULES (absoluteFilePath : String)
deriving DecidableEq, Repr

/-- Outcome of `resolveProjectFile`. -/
inductive ProjectRootOutcome where
  | ok (file : ResolvedFileV)
  | err (e : ProjectRootError)
deriving DecidableEq, Repr

/-- Model of `resolveProjectFile`: the project-root membership check, the
first cache lookup under the caller-supplied casing, the true-case
validation (a missing file is the only failure; a casing difference
rewrites the relative path and the source name), the node_modules check,
the second cache lookup under the corrected source name, and only then
the content read, construction and interning. -/
def resolveProjectFile (fs : ResolverFs) (st : ResolverState)
    (absoluteFilePath : String) : ResolverState × ProjectRootOutcome :=
  if !strStartsWith absoluteFilePath st.projectRoot then
    (st, .err (.PROJECT_ROOT_FILE_NOT_IN_PROJECT absoluteFilePath))
  else
    let relativeFilePath := pathRelativeUnder st.projectRoot absoluteFilePath
    let sourceName :=
      snJoin2 st.map.project.rootSourceName relativeFilePath
    match lookupA st.files sourceName with
    | some existing => (st, .ok existing)
    | none =>
      match fs.getFileTrueCase st.projectRoot relativeFilePath with
      | none => (st, .err (.PROJECT_ROOT_FILE_DOESNT_EXIST absoluteFilePath))
      | some trueCasePath =>
        let realCasingRelativePath :=
          if trueCasePath ≠ relativeFilePath then trueCasePath
          else relativeFilePath
        let sourceName2 :=
          if trueCasePath ≠ relativeFilePath then
            snJoin2 st.map.project.rootSourceName trueCasePath
          else sourceName
        if strStartsWith sourceName2
            (snJoin2 st.map.project.rootSourceName "node_modules/") then
          (st, .err (.PROJECT_ROOT_FILE_IN_NODE_MODULES absoluteFilePath))
        else
          match lookupA st.files sourceName2 with
          | some cached => (st, .ok cached)
          | none =>
            let fsPath := pathJoin st.projectRoot realCasingRelativePath
            let text := fs.mapFs.readUtf8File fsPath
            let file : ResolvedFileV :=
              ⟨st.nextFileId, sourceName2, fsPath,
               ⟨text, fs.analyzeImports text, fs.analyzePragmas text⟩,
               st.map.project, false⟩
            ({ st with
                files := setA st.files sourceName2 file
                nextFileId := st.nextFileId + 1 },
             .ok file)

/-! ## Concrete fixtures for the spec scenarios -/

/-- Scenario 1 of the spec (project `/p`, one root `remappings.txt` with
two local remappings separated by a blank line). -/
def mfsC2 : MapFs :=
  { findDependencyPackageJson := fun _ _ => none
    readPackageJson := fun _ => ⟨"top-level-remappings", "1.2.4", false⟩
    getAllRemappingsTxtFiles := fun r =>
      if r = "/p" then ["/p/remappings.txt"] else []
    readUtf8File := fun f =>
      if f = "/p/remappings.txt" then
        "foo/=bar/\n\n context/:prefix/=target/\n"
      else "" }

/-- Scenario 3 of the spec (root remappings plus two nested
`remappings.txt` files; the discovery order lists the nested files first,
as the spec's deterministic walk requires). -/
def mfsC3 : MapFs :=
  { findDependencyPackageJson := fun _ _ => none
    readPackageJson := fun _ => ⟨"merge-nested-remappings", "1.2.4", false⟩
    getAllRemappingsTxtFiles := fun r =>
      if r = "/p" then
        ["/p/lib/submodule/remappings.txt",
         "/p/lib/submodule2/remappings.txt",
         "/p/remappings.txt"]
      else []
    readUtf8File := fun f =>
      if f = "/p/remappings.txt" then "foo/=bar/"
      else "context/:prefix/=target/" }

/-- Scenario 2 of the spec (a lone nested `remappings.txt` whose only line
is missing the trailing slash on its target). -/
def mfsC4 : MapFs :=
  { findDependencyPackageJson := fun _ _ => none
    readPackageJson := fun _ => ⟨"nested-remappings-errors", "1.2.4", false⟩
    getAllRemappingsTxtFiles := fun r =>
      if r = "/p" then ["/p/lib/submodule/remappings.txt"] else []
    readUtf8File := fun _ => "foo/=bar\n" }

/-- An npm remapping whose prefix equals the stripped target while the
stripped target fails the npm module-name grammar. -/
def mfsC5 : MapFs :=
  { findDependencyPackageJson := fun _ _ => none
    readPackageJson := fun _ => ⟨"ignore-nop-npm-remappings", "1.2.4", false⟩
    getAllRemappingsTxtFiles := fun r =>
      if r = "/p" then ["/p/remappings.txt"] else []
    readUtf8File := fun _ => "@only-scope/=node_modules/@only-scope/\n" }

/-- The project package of the resolver fixtures. -/
def projW : Package := ⟨0, "top", "1.2.4", "/p", "project", false⟩

/-- An empty-project map oracle for the resolver fixtures. -/
def mfsEmpty : MapFs :=
  { findDependencyPackageJson := fun _ _ => none
    readPackageJson := fun _ => ⟨"top", "1.2.4", false⟩
    getAllRemappingsTxtFiles := fun _ => []
    readUtf8File := fun _ => "" }

/-- A resolver oracle on which every path exists with the requested casing
and `/p/lib/X.sol` is the only file the `exists` check reports. -/
def fsW : ResolverFs :=
  { mapFs := mfsEmpty
    getFileTrueCase := fun _ rel => some rel
    analyzeImports := fun _ => []
    analyzePragmas := fun _ => []
    resolvePackageExports := fun _ _ => none
    fileExists := fun p => p = "/p/lib/X.sol" }

/-- Like `fsW` but with no file visible to the `exists` check. -/
def fsW2 : ResolverFs := { fsW with fileExists := fun _ => false }

/-- The drained map of the empty project. -/
def mapW : MapState :=
  { project := projW, nextId := 1, byName := [("project", projW)],
    inst := [(0, [])], ur := [(0, [])], queue := [] }

/-- A fresh resolver state over `mapW`. -/
def stW : ResolverState :=
  { projectRoot := "/p", map := mapW, files := [], nextFileId := 0 }

/-- A resolved project file at `contracts/A.sol`. -/
def frmW : ResolvedFileV :=
  ⟨50, "project/contracts/A.sol", "/p/contracts/A.sol", ⟨"", [], []⟩, projW,
   false⟩

/-! ## C2 and C3: the concrete userRemappings scenarios -/

/-- C2: for a project rooted at `/p` whose `remappings.txt` holds the two
lines `foo/=bar/` and `context/:prefix/=target/` separated by a blank
line, `userRemappings` of the project package returns exactly the two
claimed entries in order: local remappings get their context and target
rewritten by prepending the package root source name plus the remapping
file's subdirectory, the prefix (`pfx`) is never rewritten, and
`originalFormat` is the trimmed verbatim line. -/
theorem c2_top_level_remappings_scenario :
    projectUserRemappingsAfterCreate mfsC2 "/p" 2 =
      some
        [⟨"project/", "foo/", "project/bar/", "foo/=bar/",
          "/p/remappings.txt", none⟩,
         ⟨"project/context/", "prefix/", "project/target/",
          "context/:prefix/=target/", "/p/remappings.txt", none⟩] := by
  decide

/-- C3: with root remappings `foo/=bar/` plus `lib/submodule` and
`lib/submodule2` remappings files, `userRemappings` of the project package
returns the nested files' remappings first, in the deterministic
file-discovery order, and the root remapping last: submodule entry,
submodule2 entry, root entry. -/
theorem c3_nested_remappings_order :
    projectUserRemappingsAfterCreate mfsC3 "/p" 2 =
      some
        [⟨"project/lib/submodule/context/", "prefix/",
          "project/lib/submodule/target/", "context/:prefix/=target/",
          "/p/lib/submodule/remappings.txt", none⟩,
         ⟨"project/lib/submodule2/context/", "prefix/",
          "project/lib/submodule2/target/", "context/:prefix/=target/",
          "/p/lib/submodule2/remappings.txt", none⟩,
         ⟨"project/", "foo/", "project/bar/", "foo/=bar/",
          "/p/remappings.txt", none⟩] := by
  decide

/-! ## C4: the slash-endings error and its misspelled discriminant -/

/-- C4 counterexample: the lone `lib/submodule/remappings.txt` containing
`foo/=bar` does make construction fail with exactly one slash-endings
error carrying the claimed source and remapping, but the discriminant
string of that error is the source's misspelled
`ILLEGAL_REMAPPING_WIHTOUT_SLASH_ENDINGS`, not the
`ILLEGAL_REMAPPING_WITHOUT_SLASH_ENDINGS` the claim states. -/
theorem c4_counterexample :
    createMap mfsC4 "/p" 2 =
      .err [⟨.ILLEGAL_REMAPPING_WIHTOUT_SLASH_ENDINGS, "foo/=bar",
             "/p/lib/submodule/remappings.txt"⟩] ∧
    UserRemappingErrorType.discriminant
        .ILLEGAL_REMAPPING_WIHTOUT_SLASH_ENDINGS ≠
      "ILLEGAL_REMAPPING_WITHOUT_SLASH_ENDINGS" := by
  exact ⟨by decide, by decide⟩

/-! ## C5 counterexample: the no-op drop precedes the grammar check -/

/-- C5 counterexample: the line `@only-scope/=node_modules/@only-scope/`
has a stripped target that fails the npm module-name grammar, yet map
construction reports no `REMAPPING_WITH_INVALID_SYNTAX` at all: because
the prefix equals the stripped target, the line is dropped silently
before the grammar extraction, and construction succeeds with an empty
remapping list. -/
theorem c5_counterexample :
    getNpmPackageName "@only-scope/" = none ∧
    projectUserRemappingsAfterCreate mfsC5 "/p" 2 = some [] := by
  exact ⟨by decide, by decide⟩

/-! ## C7 and C8: the unimplemented relative and direct-local paths -/

/-- C7 (code bug): for a relative import that stays inside the package and
matches no user remapping, `#resolveImport` dispatches to
`#resolveRelativeImport`, which returns the `1 as any` placeholder instead
of a resolved file: at the concrete input `./B.sol` from
`project/contracts/A.sol` the claim's preconditions all hold, yet the
outcome is the placeholder, not a success carrying an interned file. -/
theorem c7_relative_branch_placeholder :
    strStartsWith "./B.sol" "./" = true ∧
    strStartsWith (snJoin2 (posixDirname frmW.sourceName) "./B.sol")
        frmW.pkg.rootSourceName = true ∧
    selectBestRemapping frmW.sourceName
        (snJoin2 (posixDirname frmW.sourceName) "./B.sol")
        (getUserRemappings stW.map frmW.pkg) = none ∧
    resolveImport fsW 2 stW frmW "./B.sol" =
      (stW, .placeholderRelativeImport) := by
  exact ⟨by decide, by decide, by decide, by decide⟩

/-- C8 (code bug): when npm resolution fails with
`IMPORT_OF_UNINSTALLED_PACKAGE` and an ancestor of `from.fsPath` holds a
file at the literal import path, `#tryToGenerateDirectLocalImportError`
throws `new Error("Invalid direct import")` (a placeholder, see its TODO)
instead of returning the tailored `IMPORT_DOESNT_EXIST` value the claim
describes; when no ancestor holds such a file, the original npm failure is
returned unchanged. -/
theorem c8_direct_local_fallback_throws :
    resolveImport fsW 2 stW frmW "lib/X.sol" =
      (stW, .thrown "Invalid direct import") ∧
    resolveImport fsW2 2 stW frmW "lib/X.sol" =
      (stW, .err (.IMPORT_OF_UNINSTALLED_PACKAGE "/p/contracts/A.sol"
                    "lib/X.sol" "lib")) := by
  exact ⟨by decide, by decide⟩

/-! ## C6 counterexample: a backslash wins over the escape check -/

/-- C6 counterexample: `../../x\B.sol` from `project/contracts/A.sol` is a
relative import (it begins with `../`) whose computed direct import
escapes `project`, yet `resolveImport` returns
`IMPORT_WITH_WINDOWS_PATH_SEPARATORS` — the windows-separator check runs
before the escape check — and not the `ILLEGAL_RELATIVE_IMPORT` the claim
requires for every escaping relative import. -/
theorem c6_counterexample :
    strStartsWith "../../x\\B.sol" "../" = true ∧
    strStartsWith (snJoin2 (posixDirname frmW.sourceName) "../../x\\B.sol")
        frmW.pkg.rootSourceName = false ∧
    resolveImport fsW 2 stW frmW "../../x\\B.sol" =
      (stW, .err (.IMPORT_WITH_WINDOWS_PATH_SEPARATORS "/p/contracts/A.sol"
                    "../../x\\B.sol")) ∧
    ImportOutcome.err
        (.IMPORT_WITH_WINDOWS_PATH_SEPARATORS "/p/contracts/A.sol"
           "../../x\\B.sol") ≠
      ImportOutcome.err
        (.ILLEGAL_RELATIVE_IMPORT "/p/contracts/A.sol" "../../x\\B.sol") := by
  exact ⟨by decide, by decide, by decide, by decide⟩

/-- C4 amended: for every remappings.txt line whose prefix, or target, or
non-empty context does not end in `/`, map construction fails, reporting
for that line an error whose discriminant is exactly the string
`ILLEGAL_REMAPPING_WIHTOUT_SLASH_ENDINGS` (the source's spelling), whose
source is the absolute path of the remappings.txt the line came from, and
whose remapping field is the trimmed verbatim line; the lone
`lib/submodule/remappings.txt` containing `foo/=bar` yields exactly one
such error. -/
theorem c4_slash_error_amended :
    (∀ (mfs : MapFs) (m : MapState) (pkg : Package) (src line : String)
        (rm : RemappingV),
      parseRemappingString line = some rm →
      ((strLen rm.context > 0 && !strEndsWith rm.context "/") ||
        !strEndsWith rm.pfx "/" || !strEndsWith rm.target "/") = true →
      validateAndResolveUserRemapping mfs m pkg src line =
        (m, some ⟨.ILLEGAL_REMAPPING_WIHTOUT_SLASH_ENDINGS, line, src⟩)) ∧
    createMap mfsC4 "/p" 2 =
      .err [⟨.ILLEGAL_REMAPPING_WIHTOUT_SLASH_ENDINGS, "foo/=bar",
             "/p/lib/submodule/remappings.txt"⟩] := by
  constructor
  · intro mfs m pkg src line rm hparse hslash
    unfold validateAndResolveUserRemapping
    rw [hparse]
    simp only [hslash, if_true]
  · decide

/-- Witness for C4's amended theorem at the concrete scenario line. -/
theorem c4_witness :
    validateAndResolveUserRemapping mfsC4 mapW projW
        "/p/lib/submodule/remappings.txt" "foo/=bar" =
      (mapW, some ⟨.ILLEGAL_REMAPPING_WIHTOUT_SLASH_ENDINGS, "foo/=bar",
                   "/p/lib/submodule/remappings.txt"⟩) :=
  c4_slash_error_amended.1 mfsC4 mapW projW _ _ ⟨"", "foo/", "bar"⟩
    (by decide) (by decide)

/-- C5 amended: for every syntactically valid remappings.txt line with
legal slash endings whose target begins with `node_modules/`: if the
prefix equals the stripped target the remapping is dropped silently as a
no-op, before any grammar check; only otherwise, when the stripped target
fails the npm module-name grammar, does map construction report
`REMAPPING_WITH_INVALID_SYNTAX` for that line. -/
theorem c5_npm_remapping_amended :
    ∀ (mfs : MapFs) (m : MapState) (pkg : Package) (src line : String)
      (rm : RemappingV),
      parseRemappingString line = some rm →
      ((strLen rm.context > 0 && !strEndsWith rm.context "/") ||
        !strEndsWith rm.pfx "/" || !strEndsWith rm.target "/") = false →
      strStartsWith rm.target "node_modules/" = true →
      (rm.pfx = strDrop rm.target (strLen "node_modules/") →
        validateAndResolveUserRemapping mfs m pkg src line = (m, none)) ∧
      (rm.pfx ≠ strDrop rm.target (strLen "node_modules/") →
       getNpmPackageName (strDrop rm.target (strLen "node_modules/")) = none →
        validateAndResolveUserRemapping mfs m pkg src line =
          (m, some ⟨.REMAPPING_WITH_INVALID_SYNTAX, line, src⟩)) := by
  intro mfs m pkg src line rm hparse hslash hnm
  unfold validateAndResolveUserRemapping
  rw [hparse]
  simp only [hslash, hnm, Bool.false_eq_true, if_false, Bool.not_true, if_neg]
  constructor
  · intro heq
    simp [heq]
  · intro hne hgram
    rw [if_neg hne, hgram]

/-- Witness for C5's amended theorem at the no-op line of the
counterexample scenario. -/
theorem c5_witness :
    validateAndResolveUserRemapping mfsC5 mapW projW "/p/remappings.txt"
        "@only-scope/=node_modules/@only-scope/" = (mapW, none) :=
  (c5_npm_remapping_amended mfsC5 mapW projW _ _
      ⟨"", "@only-scope/", "node_modules/@only-scope/"⟩
      (by decide) (by decide) (by decide)).1 (by decide)

/-- C6 amended: for every resolved file and relative import (beginning
with `./` or `../`), `resolveImport` never returns a file outside the
package's root source name (the relative branch never returns a file at
all); and whenever the import contains no backslash and the computed
direct import does not lie under `from.package.rootSourceName`, the
result is exactly the `ILLEGAL_RELATIVE_IMPORT` error carrying
`fromFsPath` and `importPath` (for an import containing a backslash the
windows-separator check answers first). -/
theorem c6_no_escape_amended (fs : ResolverFs) (fuel : Nat)
    (st : ResolverState) (frm : ResolvedFileV) (imp : String)
    (hrel : (strStartsWith imp "./" || strStartsWith imp "../") = true) :
    (∀ f r, (resolveImport fs fuel st frm imp).2 = .ok f r →
        strStartsWith f.sourceName frm.pkg.rootSourceName = true) ∧
    (strContainsChar imp '\\' = false →
     strStartsWith (snJoin2 (posixDirname frm.sourceName) imp)
         frm.pkg.rootSourceName = false →
     resolveImport fs fuel st frm imp =
       (st, .err (.ILLEGAL_RELATIVE_IMPORT frm.fsPath imp))) := by
  constructor
  · intro f r h
    unfold resolveImport at h
    by_cases hbs : strContainsChar imp '\\' = true
    · simp [hbs] at h
    · have hbs' : strContainsChar imp '\\' = false := by simpa using hbs
      simp only [hbs', Bool.false_eq_true, if_false, hrel, if_true,
        Bool.true_and] at h
      by_cases hesc : strStartsWith (snJoin2 (posixDirname frm.sourceName) imp)
          frm.pkg.rootSourceName = true
      · simp only [hesc, Bool.not_true, Bool.false_eq_true, if_false] at h
        cases hsel : selectBestRemapping frm.sourceName
            (snJoin2 (posixDirname frm.sourceName) imp)
            (getUserRemappings st.map frm.pkg) with
        | none => rw [hsel] at h; simp at h
        | some rm => rw [hsel] at h; simp at h
      · have hesc' : strStartsWith (snJoin2 (posixDirname frm.sourceName) imp)
            frm.pkg.rootSourceName = false := by simpa using hesc
        simp only [hesc', Bool.not_false, if_true] at h
        simp at h
  · intro hbs' hesc'
    unfold resolveImport
    simp only [hbs', Bool.false_eq_true, if_false, hrel, if_true,
      Bool.true_and, hesc', Bool.not_false]

/-- Witness for C6's amended theorem: the backslash-free escaping import
`../../B.sol` from `project/contracts/A.sol` yields exactly the
`ILLEGAL_RELATIVE_IMPORT` error. -/
theorem c6_witness :
    resolveImport fsW 2 stW frmW "../../B.sol" =
      (stW, .err (.ILLEGAL_RELATIVE_IMPORT "/p/contracts/A.sol"
                    "../../B.sol")) :=
  (c6_no_escape_amended fsW 2 stW frmW "../../B.sol" (by decide)).2
    (by decide) (by decide)

/-! ## C1: package canonicity

The association-list lemmas below model `Map.get`/`Map.set`; `ReachMap`
closes the initial state of the map under the atomic mutations of the
class (`#resolveDependencyByInstallationName`, the user-remapping list
updates, and the queue shift of the drain loop) — every state the class
ever holds is built from the constructor state by these operations. -/

theorem lookupA_setA_self {β : Type} (l : List (String × β)) (k : String)
    (v : β) : lookupA (setA l k v) k = some v := by
  induction l with
  | nil => simp [setA, lookupA]
  | cons hd tl ih =>
    obtain ⟨k', v'⟩ := hd
    by_cases hk : k' = k
    · simp [setA, hk, lookupA]
    · simp [setA, hk, lookupA, ih]

theorem lookupA_setA_ne {β : Type} (l : List (String × β)) (k k' : String)
    (v : β) (h : k' ≠ k) : lookupA (setA l k v) k' = lookupA l k' := by
  induction l with
  | nil =>
    simp only [setA, lookupA]
    rw [if_neg (Ne.symm h)]
  | cons hd tl ih =>
    obtain ⟨k0, v0⟩ := hd
    by_cases hk : k0 = k
    · subst hk
      simp only [setA, if_pos rfl, lookupA]
      rw [if_neg (Ne.symm h), if_neg (Ne.symm h)]
    · simp only [setA, if_neg hk, lookupA]
      by_cases hk' : k0 = k'
      · rw [if_pos hk', if_pos hk']
      · rw [if_neg hk', if_neg hk', ih]

theorem lookupN_setN_self {β : Type} (l : List (Nat × β)) (k : Nat) (v : β) :
    lookupN (setN l k v) k = some v := by
  induction l with
  | nil => simp [setN, lookupN]
  | cons hd tl ih =>
    obtain ⟨k', v'⟩ := hd
    by_cases hk : k' = k
    · simp [setN, hk, lookupN]
    · simp [setN, hk, lookupN, ih]

theorem lookupN_setN_ne {β : Type} (l : List (Nat × β)) (k k' : Nat) (v : β)
    (h : k' ≠ k) : lookupN (setN l k v) k' = lookupN l k' := by
  induction l with
  | nil =>
    simp only [setN, lookupN]
    rw [if_neg (Ne.symm h)]
  | cons hd tl ih =>
    obtain ⟨k0, v0⟩ := hd
    by_cases hk : k0 = k
    · subst hk
      simp only [setN, if_pos rfl, lookupN]
      rw [if_neg (Ne.symm h), if_neg (Ne.symm h)]
    · simp only [setN, if_neg hk, lookupN]
      by_cases hk' : k0 = k'
      · rw [if_pos hk', if_pos hk']
      · rw [if_neg hk', if_neg hk', ih]

theorem lookupEdge_eq (m : MapState) (o : Nat) (n' : String) :
    lookupEdge m o n' = lookupA ((lookupN m.inst o).getD []) n' := by
  unfold lookupEdge
  cases lookupN m.inst o <;> simp [lookupA]

theorem lookupEdge_setEdge (m : MapState) (o : Nat) (nm : String) (e : EdgeV)
    (o' : Nat) (n' : String) :
    lookupEdge (setEdge m o nm e) o' n' =
      if o' = o then
        (if n' = nm then some e
         else lookupA ((lookupN m.inst o).getD []) n')
      else lookupEdge m o' n' := by
  unfold setEdge
  by_cases ho : o' = o
  · subst ho
    rw [if_pos rfl, lookupEdge_eq]
    simp only [lookupN_setN_self, Option.getD_some]
    by_cases hn : n' = nm
    · subst hn
      rw [if_pos rfl, lookupA_setA_self]
    · rw [if_neg hn, lookupA_setA_ne _ _ _ _ hn]
  · rw [if_neg ho, lookupEdge_eq, lookupEdge_eq]
    simp only [lookupN_setN_ne _ _ _ _ ho]

def PackagesCanonical (m : MapState) : Prop :=
  (∀ k p, lookupA m.byName k = some p → p.rootSourceName = k) ∧
  (∀ ownerId nm e, lookupEdge m ownerId nm = some e →
     lookupA m.byName e.pkg.rootSourceName = some e.pkg)

theorem packagesCanonical_setEdge (m : MapState) (o : Nat) (nm : String)
    (e : EdgeV) (hpkg : lookupA m.byName e.pkg.rootSourceName = some e.pkg)
    (h : PackagesCanonical m) : PackagesCanonical (setEdge m o nm e) := by
  constructor
  · exact h.1
  · intro o' n' e' he'
    rw [lookupEdge_setEdge] at he'
    by_cases ho : o' = o
    · rw [if_pos ho] at he'
      by_cases hn : n' = nm
      · rw [if_pos hn] at he'
        cases he'
        exact hpkg
      · rw [if_neg hn] at he'
        exact h.2 o n' e' ((lookupEdge_eq m o n').symm ▸ he')
    · rw [if_neg ho] at he'
      exact h.2 o' n' e' he'

theorem packagesCanonical_insertNew (m : MapState) (p : Package)
    (hnone : lookupA m.byName p.rootSourceName = none)
    (h : PackagesCanonical m) : PackagesCanonical (insertNewPackage m p) := by
  constructor
  · intro k q hk
    by_cases hkp : k = p.rootSourceName
    · subst hkp
      rw [show (insertNewPackage m p).byName = setA m.byName p.rootSourceName p
          from rfl, lookupA_setA_self] at hk
      cases hk
      rfl
    · rw [show (insertNewPackage m p).byName = setA m.byName p.rootSourceName p
          from rfl, lookupA_setA_ne _ _ _ _ hkp] at hk
      exact h.1 k q hk
  · intro o' n' e' he'
    rw [lookupEdge_eq,
      show (insertNewPackage m p).inst = setN m.inst p.id [] from rfl] at he'
    by_cases ho : o' = p.id
    · rw [ho, lookupN_setN_self] at he'
      simp [lookupA] at he'
    · rw [lookupN_setN_ne _ _ _ _ ho] at he'
      have he2 : lookupEdge m o' n' = some e' := by
        rw [lookupEdge_eq]; exact he'
      have hold := h.2 o' n' e' he2
      have hne : e'.pkg.rootSourceName ≠ p.rootSourceName := by
        intro hcontra
        rw [hcontra, hnone] at hold
        cases hold
      rw [show (insertNewPackage m p).byName = setA m.byName p.rootSourceName p
          from rfl, lookupA_setA_ne _ _ _ _ hne]
      exact hold

theorem packagesCanonical_loadDep (m : MapState) (frm : Package) (nm : String)
    (pj : PackageJsonV) (pjPath version rsn : String)
    (h : PackagesCanonical m) :
    PackagesCanonical (loadDependencyPackage m frm nm pj pjPath version rsn).1 := by
  unfold loadDependencyPackage
  split
  next existing hby =>
    refine packagesCanonical_setEdge _ _ _ _ ?_ h
    show lookupA m.byName existing.rootSourceName = some existing
    rw [h.1 _ existing hby]
    exact hby
  next hby =>
    refine packagesCanonical_setEdge _ _ _ _ ?_
      (packagesCanonical_insertNew m _ hby h)
    exact lookupA_setA_self m.byName _ _

theorem packagesCanonical_resolveDep (mfs : MapFs) (m : MapState)
    (frm : Package) (nm : String) (h : PackagesCanonical m) :
    PackagesCanonical
      (resolveDependencyByInstallationName mfs m frm nm).1 := by
  unfold resolveDependencyByInstallationName
  split
  · exact h
  next deps hinst =>
    split
    · exact h
    next hdep =>
      split
      · exact h
      next pjPath hfind =>
        exact packagesCanonical_loadDep _ _ _ _ _ _ _ h

inductive ReachMap : MapState → Prop where
  | init (name version rootFsPath : String) (exportsPresent : Bool) :
      ReachMap
        (initialMapState ⟨0, name, version, rootFsPath, "project",
          exportsPresent⟩)
  | resolveDep (m : MapState) (mfs : MapFs) (frm : Package) (nm : String) :
      ReachMap m →
      ReachMap (resolveDependencyByInstallationName mfs m frm nm).1
  | setUserRemappings (m : MapState) (pid : Nat)
      (l : List ResolvedUserRemapping) :
      ReachMap m → ReachMap (setUR m pid l)
  | pushUserRemapping (m : MapState) (pid : Nat)
      (r : ResolvedUserRemapping) :
      ReachMap m → ReachMap (pushUR m pid r)
  | dequeue (m : MapState) :
      ReachMap m → ReachMap { m with queue := m.queue.drop 1 }

theorem packagesCanonical_initial (p : Package) :
    PackagesCanonical (initialMapState p) := by
  constructor
  · intro k q hk
    simp only [show (initialMapState p).byName = [(p.rootSourceName, p)]
        from rfl, lookupA] at hk
    split at hk
    next heq =>
      cases hk
      exact heq
    next => exact Option.noConfusion hk
  · intro o n' e he
    rw [lookupEdge_eq,
      show (initialMapState p).inst = [(p.id, [])] from rfl] at he
    by_cases ho : p.id = o
    · rw [show lookupN [(p.id, ([] : List (String × EdgeV)))] o =
          if p.id = o then some [] else none from rfl, if_pos ho] at he
      exact Option.noConfusion he
    · rw [show lookupN [(p.id, ([] : List (String × EdgeV)))] o =
          if p.id = o then some [] else none from rfl, if_neg ho] at he
      exact Option.noConfusion he

theorem packagesCanonical_of_reach (m : MapState) (h : ReachMap m) :
    PackagesCanonical m := by
  induction h with
  | init name version rootFsPath e => exact packagesCanonical_initial _
  | resolveDep m mfs frm nm _ ih =>
    exact packagesCanonical_resolveDep mfs m frm nm ih
  | setUserRemappings m pid l _ ih => exact ih
  | pushUserRemapping m pid r _ ih => exact ih
  | dequeue m _ ih => exact ih

def edgeTarget (m : MapState) (ownerId : Nat) (installationName : String) :
    Option Package :=
  (lookupEdge m ownerId installationName).map EdgeV.pkg

/-- C1: package canonicity.  In every reachable state of the map, for
every pair of installation edges `(a, name_a) → X` and `(b, name_b) → Y`,
if `X.rootSourceName` equals `Y.rootSourceName` then `X` and `Y` are the
same Package value (package records carry their object identity, so
record equality is object identity). -/
theorem c1_package_canonicity (m : MapState) (hreach : ReachMap m)
    (a : Nat) (na : String) (b : Nat) (nb : String) (X Y : Package)
    (hX : edgeTarget m a na = some X) (hY : edgeTarget m b nb = some Y)
    (hsn : X.rootSourceName = Y.rootSourceName) : X = Y := by
  have hinv := packagesCanonical_of_reach m hreach
  unfold edgeTarget at hX hY
  cases heX : lookupEdge m a na with
  | none => rw [heX] at hX; cases hX
  | some e1 =>
    rw [heX] at hX
    cases heY : lookupEdge m b nb with
    | none => rw [heY] at hY; cases hY
    | some e2 =>
      rw [heY] at hY
      have hX' : e1.pkg = X := Option.some.inj hX
      have hY' : e2.pkg = Y := Option.some.inj hY
      have h1 := hinv.2 a na e1 heX
      have h2 := hinv.2 b nb e2 heY
      rw [hX'] at h1
      rw [hY'] at h2
      rw [hsn] at h1
      rw [h2] at h1
      exact (Option.some.inj h1).symm

def mfsC1a : MapFs :=
  { findDependencyPackageJson := fun _ nm =>
      if nm = "depA" then some "/p/node_modules/depA/package.json" else none
    readPackageJson := fun _ => ⟨"dep", "1.0.0", false⟩
    getAllRemappingsTxtFiles := fun _ => []
    readUtf8File := fun _ => "" }

def mfsC1b : MapFs :=
  { mfsC1a with
    findDependencyPackageJson := fun _ nm =>
      if nm = "depB" then some "/p/node_modules/depB/package.json" else none }

def stC1a : MapState :=
  (resolveDependencyByInstallationName mfsC1a (initialMapState projW) projW
    "depA").1

def stC1w : MapState :=
  (resolveDependencyByInstallationName mfsC1b stC1a projW "depB").1

def pkgDepW : Package :=
  ⟨1, "dep", "1.0.0", "/p/node_modules/depA", "npm/dep@1.0.0", false⟩

theorem reachC1w : ReachMap stC1w :=
  ReachMap.resolveDep stC1a mfsC1b projW "depB"
    (ReachMap.resolveDep (initialMapState projW) mfsC1a projW "depA"
      (ReachMap.init "top" "1.2.4" "/p" false))

/-- Witness for C1: the same dependency installed under the two names
`depA` and `depB` resolves both edges to one interned package value. -/
theorem c1_witness :
    edgeTarget stC1w 0 "depA" = some pkgDepW ∧
    edgeTarget stC1w 0 "depB" = some pkgDepW ∧ pkgDepW = pkgDepW := by
  have hA : edgeTarget stC1w 0 "depA" = some pkgDepW := by decide
  have hB : edgeTarget stC1w 0 "depB" = some pkgDepW := by decide
  exact ⟨hA, hB, c1_package_canonicity stC1w reachC1w 0 "depA" 0 "depB"
    pkgDepW pkgDepW hA hB rfl⟩

/-! ## C10: project-file resolution and casing -/

theorem listStartsWith_append (l m : List Char) :
    listStartsWith (l ++ m) l = true := by
  induction l with
  | nil => cases m <;> rfl
  | cons c cs ih => simp [listStartsWith, ih]

theorem strStartsWith_append_append (a b c : String) :
    strStartsWith (a ++ b ++ c) a = true := by
  unfold strStartsWith
  have h : (a ++ b ++ c).toList = a.toList ++ (b.toList ++ c.toList) := by
    simp [String.toList, String.data_append, List.append_assoc]
  rw [h]
  exact listStartsWith_append _ _

theorem append_slash_ne (root rest : String) :
    root ++ "/" ++ rest ≠ root := by
  intro h
  have h2 : (root ++ "/" ++ rest).data.length = root.data.length := by rw [h]
  rw [String.data_append, String.data_append, List.length_append,
    List.length_append] at h2
  have h3 : ("/" : String).data.length = 1 := rfl
  omega

theorem strDrop_append (a b : String) :
    strDrop (a ++ b) (strLen a) = b := by
  unfold strDrop strLen
  have h : (a ++ b).toList = a.toList ++ b.toList := by
    simp [String.toList, String.data_append]
  rw [h, List.drop_left]
  rfl

theorem pathRelativeUnder_append (root rest : String) :
    pathRelativeUnder root (root ++ "/" ++ rest) = rest := by
  unfold pathRelativeUnder
  rw [if_neg (append_slash_ne root rest)]
  have hsw : strStartsWith (root ++ "/" ++ rest) (root ++ "/") = true := by
    unfold strStartsWith
    have h : (root ++ "/" ++ rest).toList = (root ++ "/").toList ++ rest.toList := by
      simp [String.toList, String.data_append]
    rw [h]
    exact listStartsWith_append _ _
  rw [if_pos hsw]
  have hlen : strLen root + 1 = strLen (root ++ "/") := by
    unfold strLen
    simp [String.toList, String.data_append]
  rw [hlen, strDrop_append]

/-- The intern-table invariant: every interned file is stored under its
own source name (the resolver only ever interns with that key). -/
def TableOk (files : List (String × ResolvedFileV)) : Prop :=
  ∀ k v, lookupA files k = some v → v.sourceName = k

/-- The file `resolveProjectFile` builds on a cache miss with corrected
casing `tc`. -/
def c10File (fs : ResolverFs) (st : ResolverState) (tc : String) :
    ResolvedFileV :=
  ⟨st.nextFileId, snJoin2 st.map.project.rootSourceName tc,
   pathJoin st.projectRoot tc,
   ⟨fs.mapFs.readUtf8File (pathJoin st.projectRoot tc),
    fs.analyzeImports (fs.mapFs.readUtf8File (pathJoin st.projectRoot tc)),
    fs.analyzePragmas (fs.mapFs.readUtf8File (pathJoin st.projectRoot tc))⟩,
   st.map.project, false⟩

/-- C10: resolveProjectFile never fails because of casing.  For every
absolute path under the project root naming an existing file whose
on-disk casing differs, when the corrected source name is outside
node_modules, `resolveProjectFile` succeeds (its error union
`ProjectRootError` has no casing variant): the intern table is consulted
a second time under the corrected source name, and a hit is returned
as-is with the state unchanged — before any file content is read — while
a miss builds a file whose `sourceName` and `fsPath` come from the
OS-true casing. -/
theorem c10_project_file_casing (fs : ResolverFs) (st : ResolverState)
    (rest tc : String) (htab : TableOk st.files)
    (hmiss :
      lookupA st.files (snJoin2 st.map.project.rootSourceName rest) = none)
    (hexist : fs.getFileTrueCase st.projectRoot rest = some tc)
    (hcase : tc ≠ rest)
    (hnm : strStartsWith (snJoin2 st.map.project.rootSourceName tc)
        (snJoin2 st.map.project.rootSourceName "node_modules/") = false) :
    (∀ g,
      lookupA st.files (snJoin2 st.map.project.rootSourceName tc) = some g →
      resolveProjectFile fs st (st.projectRoot ++ "/" ++ rest) = (st, .ok g) ∧
      g.sourceName = snJoin2 st.map.project.rootSourceName tc) ∧
    (lookupA st.files (snJoin2 st.map.project.rootSourceName tc) = none →
      resolveProjectFile fs st (st.projectRoot ++ "/" ++ rest) =
        ({ st with
            files := setA st.files (snJoin2 st.map.project.rootSourceName tc)
              (c10File fs st tc)
            nextFileId := st.nextFileId + 1 },
         .ok (c10File fs st tc))) := by
  constructor
  · intro g hg
    refine ⟨?_, htab _ g hg⟩
    unfold resolveProjectFile
    simp only [strStartsWith_append_append, Bool.not_true, Bool.false_eq_true,
      if_false, pathRelativeUnder_append, hmiss, hexist]
    rw [if_pos hcase, if_pos hcase]
    simp only [hnm, Bool.false_eq_true, if_false, hg]
  · intro hg
    unfold resolveProjectFile
    simp only [strStartsWith_append_append, Bool.not_true, Bool.false_eq_true,
      if_false, pathRelativeUnder_append, hmiss, hexist]
    rw [if_pos hcase, if_pos hcase]
    simp only [hnm, Bool.false_eq_true, if_false, hg]
    rfl

def fsC10 : ResolverFs :=
  { fsW with
    getFileTrueCase := fun _ rel =>
      if rel = "Contracts/a.SOL" then some "contracts/A.sol" else some rel }

/-- Witness for C10: resolving `/p/Contracts/a.SOL` when the on-disk
casing is `contracts/A.sol` succeeds with the true-cased file. -/
theorem c10_witness :
    resolveProjectFile fsC10 stW (stW.projectRoot ++ "/" ++ "Contracts/a.SOL") =
      ({ stW with
          files := setA stW.files
            (snJoin2 stW.map.project.rootSourceName "contracts/A.sol")
            (c10File fsC10 stW "contracts/A.sol")
          nextFileId := stW.nextFileId + 1 },
       .ok (c10File fsC10 stW "contracts/A.sol")) :=
  (c10_project_file_casing fsC10 stW "Contracts/a.SOL" "contracts/A.sol"
    (fun _ v h => Option.noConfusion h) (by decide) (by decide) (by decide)
    (by decide)).2 (by decide)

/-! ## C9: idempotent resolution

The invariant machinery: `MapWf` ties the installation-edge keys to the
identity allocator, and `Evolves` captures how every map mutation of a
resolution step behaves (well-formedness is preserved, the project is
unchanged, the allocator only grows, other packages' user remappings are
untouched, cached edges persist, and the queue only gains fresh
packages). -/

def MapWf (m : MapState) : Prop :=
  ∀ pid l, lookupN m.inst pid = some l → pid < m.nextId

structure Evolves (pid : Nat) (m m' : MapState) : Prop where
  wf' : MapWf m'
  project : m'.project = m.project
  nextIdMono : m.nextId ≤ m'.nextId
  urOther : ∀ q, q ≠ pid → lookupN m'.ur q = lookupN m.ur q
  edgeMono : ∀ o n' e', lookupEdge m o n' = some e' →
    lookupEdge m' o n' = some e'
  queueExt : ∃ d, m'.queue = m.queue ++ d ∧ ∀ p ∈ d, m.nextId ≤ p.id

theorem Evolves.rfl (pid : Nat) (m : MapState) (h : MapWf m) :
    Evolves pid m m :=
  ⟨h, Eq.refl _, Nat.le_refl _, fun _ _ => Eq.refl _, fun _ _ _ h' => h',
   ⟨[], by simp, by simp⟩⟩

theorem Evolves.trans {pid : Nat} {m m' m'' : MapState}
    (a : Evolves pid m m') (b : Evolves pid m' m'') : Evolves pid m m'' := by
  refine ⟨b.wf', b.project.trans a.project,
    Nat.le_trans a.nextIdMono b.nextIdMono,
    fun q hq => (b.urOther q hq).trans (a.urOther q hq),
    fun o n' e' h' => b.edgeMono _ _ _ (a.edgeMono _ _ _ h'), ?_⟩
  obtain ⟨da, hda, hia⟩ := a.queueExt
  obtain ⟨db, hdb, hib⟩ := b.queueExt
  refine ⟨da ++ db, ?_, ?_⟩
  · rw [hdb, hda, List.append_assoc]
  · intro p hp
    rcases List.mem_append.mp hp with h1 | h2
    · exact hia p h1
    · exact Nat.le_trans a.nextIdMono (hib p h2)

theorem evolves_setUR (m : MapState) (pid : Nat)
    (l : List ResolvedUserRemapping) (h : MapWf m) :
    Evolves pid m (setUR m pid l) :=
  ⟨h, Eq.refl _, Nat.le_refl _,
   fun q hq => lookupN_setN_ne m.ur pid q l hq,
   fun _ _ _ h' => h', ⟨[], by simp [setUR], by simp⟩⟩

theorem evolves_pushUR (m : MapState) (pid : Nat)
    (r : ResolvedUserRemapping) (h : MapWf m) :
    Evolves pid m (pushUR m pid r) :=
  ⟨h, Eq.refl _, Nat.le_refl _,
   fun q hq => lookupN_setN_ne m.ur pid q _ hq,
   fun _ _ _ h' => h', ⟨[], by simp [pushUR], by simp⟩⟩

theorem mapWf_setEdge (m : MapState) (o : Nat) (nm : String) (e : EdgeV)
    (ho : o < m.nextId) (h : MapWf m) : MapWf (setEdge m o nm e) := by
  intro pid l hl
  rw [show (setEdge m o nm e).inst =
      setN m.inst o (setA ((lookupN m.inst o).getD []) nm e) from rfl] at hl
  by_cases hp : pid = o
  · subst hp
    exact ho
  · rw [lookupN_setN_ne _ _ _ _ hp] at hl
    exact h pid l hl

theorem mapWf_insertNew (m : MapState) (p : Package) (hid : p.id = m.nextId)
    (h : MapWf m) : MapWf (insertNewPackage m p) := by
  intro pid l hl
  rw [show (insertNewPackage m p).inst = setN m.inst p.id [] from rfl] at hl
  rw [show (insertNewPackage m p).nextId = m.nextId + 1 from rfl]
  by_cases hp : pid = p.id
  · subst hp
    omega
  · rw [lookupN_setN_ne _ _ _ _ hp] at hl
    exact Nat.lt_succ_of_lt (h pid l hl)

theorem edgeMono_setEdge (m : MapState) (o : Nat) (nm : String) (e : EdgeV)
    (hnone : lookupEdge m o nm = none) (o' : Nat) (n' : String) (e' : EdgeV)
    (h' : lookupEdge m o' n' = some e') :
    lookupEdge (setEdge m o nm e) o' n' = some e' := by
  rw [lookupEdge_setEdge]
  by_cases ho : o' = o
  · rw [if_pos ho]
    by_cases hn : n' = nm
    · rw [ho, hn] at h'
      rw [h'] at hnone
      cases hnone
    · rw [if_neg hn]
      rw [ho] at h'
      rw [lookupEdge_eq] at h'
      exact h'
  · rw [if_neg ho]
    exact h'

theorem edgeMono_insertNew (m : MapState) (p : Package) (hid : p.id = m.nextId)
    (hwf : MapWf m) (o' : Nat) (n' : String) (e' : EdgeV)
    (h' : lookupEdge m o' n' = some e') :
    lookupEdge (insertNewPackage m p) o' n' = some e' := by
  rw [lookupEdge_eq,
    show (insertNewPackage m p).inst = setN m.inst p.id [] from rfl]
  rw [lookupEdge_eq] at h'
  cases hio : lookupN m.inst o' with
  | none => rw [hio] at h'; simp [lookupA] at h'
  | some deps =>
    have ho : o' ≠ p.id := by
      have := hwf o' deps hio
      omega
    rw [lookupN_setN_ne _ _ _ _ ho, hio]
    rw [hio] at h'
    exact h'

/- C9 stage 2 -/

theorem evolves_loadDep (m : MapState) (frm : Package) (nm : String)
    (pj : PackageJsonV) (pjPath version rsn : String) (pid : Nat)
    (h : MapWf m) (hfrm : frm.id < m.nextId)
    (hnone : lookupEdge m frm.id nm = none) :
    Evolves pid m (loadDependencyPackage m frm nm pj pjPath version rsn).1 := by
  unfold loadDependencyPackage
  split
  next existing hby =>
    refine ⟨mapWf_setEdge m frm.id nm _ hfrm h, Eq.refl _, Nat.le_refl _,
      fun q hq => Eq.refl _,
      fun o' n' e' h' => edgeMono_setEdge m frm.id nm _ hnone o' n' e' h',
      ⟨[], by simp [setEdge], by simp⟩⟩
  next hby =>
    have hwf1 : MapWf (insertNewPackage m
        ⟨m.nextId, pj.name, version, posixDirname pjPath, rsn,
         pj.exportsPresent⟩) :=
      mapWf_insertNew m _ (Eq.refl _) h
    have hnone1 : lookupEdge (insertNewPackage m
        ⟨m.nextId, pj.name, version, posixDirname pjPath, rsn,
         pj.exportsPresent⟩) frm.id nm = none := by
      rw [lookupEdge_eq,
        show (insertNewPackage m
          ⟨m.nextId, pj.name, version, posixDirname pjPath, rsn,
           pj.exportsPresent⟩).inst = setN m.inst m.nextId [] from rfl]
      have hne : frm.id ≠ m.nextId := by omega
      rw [lookupN_setN_ne _ _ _ _ hne]
      rw [lookupEdge_eq] at hnone
      exact hnone
    refine ⟨mapWf_setEdge _ frm.id nm _ (by
        rw [show (insertNewPackage m _).nextId = m.nextId + 1 from rfl]
        omega) hwf1,
      Eq.refl _, by
        rw [show (setEdge (insertNewPackage m _) frm.id nm _).nextId =
          m.nextId + 1 from rfl]
        omega,
      fun q hq => Eq.refl _,
      fun o' n' e' h' =>
        edgeMono_setEdge _ frm.id nm _ hnone1 o' n' e'
          (edgeMono_insertNew m _ (Eq.refl _) h o' n' e' h'), ?_⟩
    refine ⟨[⟨m.nextId, pj.name, version, posixDirname pjPath, rsn,
      pj.exportsPresent⟩], ?_, ?_⟩
    · rfl
    · intro p hp
      rcases List.mem_singleton.mp hp with h'
      rw [h']

theorem evolves_resolveDep (mfs : MapFs) (m : MapState) (frm : Package)
    (nm : String) (pid : Nat) (h : MapWf m) :
    Evolves pid m (resolveDependencyByInstallationName mfs m frm nm).1 := by
  unfold resolveDependencyByInstallationName
  split
  · exact Evolves.rfl pid m h
  next deps hinst =>
    split
    · exact Evolves.rfl pid m h
    next hdep =>
      split
      · exact Evolves.rfl pid m h
      next pjPath hfind =>
        have hfrm : frm.id < m.nextId := h frm.id deps hinst
        have hnone : lookupEdge m frm.id nm = none := by
          rw [lookupEdge_eq, hinst]
          exact hdep
        exact evolves_loadDep m frm nm _ pjPath _ _ pid h hfrm hnone

theorem loadDep_edge (m : MapState) (frm : Package) (nm : String)
    (pj : PackageJsonV) (pjPath version rsn : String) :
    lookupEdge (loadDependencyPackage m frm nm pj pjPath version rsn).1
        frm.id nm =
      some ⟨(loadDependencyPackage m frm nm pj pjPath version rsn).2.1,
            (loadDependencyPackage m frm nm pj pjPath version rsn).2.2⟩ := by
  unfold loadDependencyPackage
  split
  next existing hby =>
    rw [lookupEdge_setEdge, if_pos (Eq.refl _), if_pos (Eq.refl _)]
  next hby =>
    rw [lookupEdge_setEdge, if_pos (Eq.refl _), if_pos (Eq.refl _)]

theorem resolveDep_some_edge (mfs : MapFs) (m : MapState) (frm : Package)
    (nm : String) (dep : Package) (gen : RemappingV)
    (h : (resolveDependencyByInstallationName mfs m frm nm).2 =
      some (dep, gen)) :
    lookupEdge (resolveDependencyByInstallationName mfs m frm nm).1 frm.id
      nm = some ⟨dep, gen⟩ := by
  unfold resolveDependencyByInstallationName at h ⊢
  split at h
  · cases h
  next deps hinst =>
    split at h
    next e hdep =>
      simp only [hinst, hdep]
      cases h
      rw [lookupEdge_eq, hinst]
      exact hdep
    next hdep =>
      split at h
      · cases h
      next pjPath hfind =>
        simp only [hinst, hdep, hfind]
        have := loadDep_edge m frm nm (mfs.readPackageJson pjPath) pjPath
          (if isPackageJsonFromMonorepo m.project.rootFsPath pjPath then
            "local" else (mfs.readPackageJson pjPath).version)
          (if pjPath = pathJoin m.project.rootFsPath "package.json" then
            "project"
           else npmPackageToRootSourceName (mfs.readPackageJson pjPath).name
            (if isPackageJsonFromMonorepo m.project.rootFsPath pjPath then
              "local" else (mfs.readPackageJson pjPath).version))
        rw [this]
        have h2 := Option.some.inj h
        rw [h2]

theorem resolveDep_cached (mfs : MapFs) (m : MapState) (frm : Package)
    (nm : String) (e : EdgeV) (h : lookupEdge m frm.id nm = some e) :
    resolveDependencyByInstallationName mfs m frm nm =
      (m, some (e.pkg, e.generatedRemapping)) := by
  unfold resolveDependencyByInstallationName
  unfold lookupEdge at h
  cases hinst : lookupN m.inst frm.id with
  | none => rw [hinst] at h; cases h
  | some deps =>
    rw [hinst] at h
    have h' : lookupA deps nm = some e := h
    simp only [hinst, h']

theorem drain_nil (mfs : MapFs) (fuel : Nat) (m : MapState)
    (h : m.queue = []) :
    resolveAnyRemainingRemappings mfs fuel m = some (m, []) := by
  cases fuel with
  | zero => simp [resolveAnyRemainingRemappings, h]
  | succ k => simp [resolveAnyRemainingRemappings, h]



theorem evolves_validate (mfs : MapFs) (m : MapState) (p : Package)
    (src line : String) (h : MapWf m) :
    Evolves p.id m (validateAndResolveUserRemapping mfs m p src line).1 := by
  unfold validateAndResolveUserRemapping
  split
  · exact Evolves.rfl p.id m h
  next rm hparse =>
    split
    · exact Evolves.rfl p.id m h
    · split
      · exact evolves_pushUR m p.id _ h
      · dsimp only
        split
        · exact Evolves.rfl p.id m h
        · split
          · exact Evolves.rfl p.id m h
          next instName hname =>
            split
            next m1 hres =>
              have e1 := evolves_resolveDep mfs m p instName p.id h
              rw [congrArg Prod.fst hres] at e1
              exact e1
            next m1 dep gen hres =>
              have e1 := evolves_resolveDep mfs m p instName p.id h
              rw [congrArg Prod.fst hres] at e1
              exact Evolves.trans e1 (evolves_pushUR m1 p.id _ e1.wf')

theorem evolves_processLines (mfs : MapFs) (p : Package) (src : String) :
    ∀ (lines : List String) (m : MapState), MapWf m →
      Evolves p.id m (processLines mfs p src m lines).1 := by
  intro lines
  induction lines with
  | nil =>
    intro m h
    exact Evolves.rfl p.id m h
  | cons l ls ih =>
    intro m h
    have h1 := evolves_validate mfs m p src l h
    have h2 := ih (validateAndResolveUserRemapping mfs m p src l).1 h1.wf'
    exact Evolves.trans h1 h2

theorem evolves_processFiles (mfs : MapFs) (p : Package) :
    ∀ (files : List String) (m : MapState), MapWf m →
      Evolves p.id m (processFiles mfs p m files).1 := by
  intro files
  induction files with
  | nil =>
    intro m h
    exact Evolves.rfl p.id m h
  | cons f rest ih =>
    intro m h
    have h1 := evolves_processLines mfs p f
      (rawUserRemappingLines (mfs.readUtf8File f)) m h
    have h2 := ih
      (processLines mfs p f m (rawUserRemappingLines (mfs.readUtf8File f))).1
      h1.wf'
    exact Evolves.trans h1 h2

theorem drain_facts (mfs : MapFs) :
    ∀ (fuel : Nat) (n : Nat) (m m' : MapState)
      (errs : List UserRemappingError),
      MapWf m → n ≤ m.nextId → (∀ p ∈ m.queue, n ≤ p.id) →
      resolveAnyRemainingRemappings mfs fuel m = some (m', errs) →
      MapWf m' ∧ m'.project = m.project ∧ n ≤ m'.nextId ∧ m'.queue = [] ∧
      (∀ q, q < n → lookupN m'.ur q = lookupN m.ur q) ∧
      (∀ o n' e', lookupEdge m o n' = some e' →
        lookupEdge m' o n' = some e') := by
  intro fuel
  induction fuel with
  | zero =>
    intro n m m' errs hwf hn hq hdrain
    unfold resolveAnyRemainingRemappings at hdrain
    split at hdrain
    next hqe =>
      cases hdrain
      exact ⟨hwf, Eq.refl _, hn, hqe, fun q _ => Eq.refl _,
        fun o n' e' h => h⟩
    next => cases hdrain
  | succ k ih =>
    intro n m m' errs hwf hn hq hdrain
    unfold resolveAnyRemainingRemappings at hdrain
    cases hqm : m.queue with
    | nil =>
      simp only [hqm] at hdrain
      cases hdrain
      exact ⟨hwf, Eq.refl _, hn, hqm, fun q _ => Eq.refl _,
        fun o n' e' h => h⟩
    | cons p rest =>
      simp only [hqm] at hdrain
      split at hdrain
      · cases hdrain
      next m3 restErrs hrec =>
        have e1 := evolves_setUR m p.id [] hwf
        have e2 := evolves_processFiles mfs p
          (mfs.getAllRemappingsTxtFiles p.rootFsPath) (setUR m p.id []) e1.wf'
        have e12 := Evolves.trans e1 e2
        have hpid : n ≤ p.id :=
          hq p (by rw [hqm]; exact List.mem_cons_self p rest)
        obtain ⟨d, hd, hdi⟩ := e12.queueExt
        have hq1 : (processFiles mfs p (setUR m p.id [])
            (mfs.getAllRemappingsTxtFiles p.rootFsPath)).1.queue =
            p :: (rest ++ d) := by
          rw [hd, hqm]
          rfl
        have hq2 : ∀ q ∈ (processFiles mfs p (setUR m p.id [])
            (mfs.getAllRemappingsTxtFiles p.rootFsPath)).1.queue.drop 1,
            n ≤ q.id := by
          intro q hqmem
          rw [hq1] at hqmem
          simp only [List.drop_one, List.tail_cons] at hqmem
          rcases List.mem_append.mp hqmem with h1 | h2
          · exact hq q (by rw [hqm]; exact List.mem_cons_of_mem p h1)
          · exact Nat.le_trans hn (hdi q h2)
        obtain ⟨w3, proj3, hn3, hq3, hur3, hedge3⟩ :=
          ih n
            { (processFiles mfs p (setUR m p.id [])
                (mfs.getAllRemappingsTxtFiles p.rootFsPath)).1 with
              queue := List.drop 1 (processFiles mfs p (setUR m p.id [])
                (mfs.getAllRemappingsTxtFiles p.rootFsPath)).1.queue }
            m3 restErrs e12.wf' (Nat.le_trans hn e12.nextIdMono) hq2 hrec
        cases hdrain
        refine ⟨w3, proj3.trans e12.project, hn3, hq3, ?_, ?_⟩
        · intro q hqlt
          have hne : q ≠ p.id := by omega
          exact (hur3 q hqlt).trans (e12.urOther q hne)
        · intro o n' e' he
          exact hedge3 o n' e' (e12.edgeMono o n' e' he)



theorem tableOk_intern (files : List (String × ResolvedFileV))
    (f : ResolvedFileV) (h : TableOk files) :
    TableOk (setA files f.sourceName f) := by
  intro k v hv
  by_cases hk : k = f.sourceName
  · subst hk
    rw [lookupA_setA_self] at hv
    cases hv
    rfl
  · rw [lookupA_setA_ne _ _ _ _ hk] at hv
    exact h k v hv

theorem resolveUserRemappedImport_cached (fs : ResolverFs)
    (st : ResolverState) (frm : ResolvedFileV)
    (importPath directImport : String) (rm : ResolvedUserRemapping)
    (f : ResolvedFileV)
    (hlk : lookupA st.files (applyValidRemapping directImport rm) = some f) :
    resolveUserRemappedImport fs st frm importPath directImport rm =
      (st, .ok f (some (.user rm))) := by
  unfold resolveUserRemappedImport
  simp only [hlk]

theorem resolveUserRemappedImport_inv (fs : ResolverFs)
    (st : ResolverState) (frm : ResolvedFileV)
    (importPath directImport : String) (rm : ResolvedUserRemapping)
    (st' : ResolverState) (f : ResolvedFileV) (r : Option CarriedRemapping)
    (hR : resolveUserRemappedImport fs st frm importPath directImport rm =
      (st', .ok f r)) :
    r = some (.user rm) ∧
    ((st' = st ∧
        lookupA st.files (applyValidRemapping directImport rm) = some f) ∨
      (f.sourceName = applyValidRemapping directImport rm ∧
        st'.files = setA st.files (applyValidRemapping directImport rm) f ∧
        st'.map = st.map ∧ st'.projectRoot = st.projectRoot)) := by
  unfold resolveUserRemappedImport at hR
  dsimp only at hR
  cases hlk : lookupA st.files (applyValidRemapping directImport rm) with
  | some ex =>
    rw [hlk] at hR
    dsimp only at hR
    rw [Prod.mk.injEq] at hR
    obtain ⟨h1, h2⟩ := hR
    injection h2 with hf hr
    subst h1
    subst hf
    subst hr
    exact ⟨rfl, Or.inl ⟨rfl, rfl⟩⟩
  | none =>
    rw [hlk] at hR
    dsimp only at hR
    generalize hTP : (match rm.targetNpmPackage with
      | some t => t.pkg
      | none => if frm.isNpm then frm.pkg else st.map.project) = TP at hR
    generalize hRP : (if TP.id = st.map.project.id then
        applyValidRemapping directImport rm
      else strDrop (applyValidRemapping directImport rm)
        (strLen TP.rootSourceName + 1)) = RP at hR
    cases htc : fs.getFileTrueCase TP.rootFsPath RP with
    | none =>
      rw [htc] at hR
      dsimp only at hR
      rw [Prod.mk.injEq] at hR
      cases hR.2
    | some tc =>
      rw [htc] at hR
      dsimp only at hR
      by_cases hcc : tc = RP
      · rw [if_neg (not_not_intro hcc)] at hR
        rw [Prod.mk.injEq] at hR
        obtain ⟨h1, h2⟩ := hR
        injection h2 with hf hr
        subst h1
        subst hf
        subst hr
        exact ⟨rfl, Or.inr ⟨rfl, rfl, rfl, rfl⟩⟩
      · rw [if_pos hcc] at hR
        rw [Prod.mk.injEq] at hR
        cases hR.2

theorem resolveUserRemappedImport_idem (fs : ResolverFs)
    (st : ResolverState) (frm : ResolvedFileV)
    (importPath directImport : String) (rm : ResolvedUserRemapping)
    (st' : ResolverState) (f : ResolvedFileV) (r : Option CarriedRemapping)
    (htab : TableOk st.files)
    (hR : resolveUserRemappedImport fs st frm importPath directImport rm =
      (st', .ok f r)) :
    st'.map = st.map ∧ lookupA st'.files f.sourceName = some f ∧
    TableOk st'.files ∧
    resolveUserRemappedImport fs st' frm importPath directImport rm =
      (st', .ok f r) := by
  obtain ⟨hr, hcase⟩ := resolveUserRemappedImport_inv fs st frm importPath
    directImport rm st' f r hR
  cases hcase with
  | inl h =>
    obtain ⟨hst, hlk⟩ := h
    have hsn : f.sourceName = applyValidRemapping directImport rm :=
      htab _ _ hlk
    refine ⟨by rw [hst], ?_, ?_, ?_⟩
    · rw [hst, hsn]
      exact hlk
    · rw [hst]
      exact htab
    · rw [hst, resolveUserRemappedImport_cached fs st frm importPath
        directImport rm f hlk, hr]
  | inr h =>
    obtain ⟨hsn, hfiles, hmap, hroot⟩ := h
    have hlk' : lookupA st'.files f.sourceName = some f := by
      rw [hfiles, hsn]
      exact lookupA_setA_self st.files _ f
    have htab' : TableOk st'.files := by
      rw [hfiles, ← hsn]
      exact tableOk_intern st.files f htab
    refine ⟨hmap, hlk', htab', ?_⟩
    have hlk2 : lookupA st'.files (applyValidRemapping directImport rm) =
        some f := by
      rw [← hsn]
      exact hlk'
    rw [resolveUserRemappedImport_cached fs st' frm importPath directImport
      rm f hlk2, hr]

theorem finishNpmResolution_cached (fs : ResolverFs) (st2 : ResolverState)
    (frm : ResolvedFileV) (importPath directImport : String)
    (fromNpmPackage dependency : Package) (generatedRemapping : RemappingV)
    (subpath : String) (resolvedSubpath : Option String) (f : ResolvedFileV)
    (hlk : lookupA st2.files
        (snJoin2 dependency.rootSourceName (resolvedSubpath.getD subpath)) =
      some f) :
    finishNpmResolution fs st2 frm importPath directImport fromNpmPackage
        dependency generatedRemapping subpath resolvedSubpath =
      (st2, .ok f (some (chosenNpmRemapping directImport fromNpmPackage
        dependency generatedRemapping subpath resolvedSubpath))) := by
  unfold finishNpmResolution
  simp only [hlk]

theorem finishNpmResolution_inv (fs : ResolverFs) (st2 : ResolverState)
    (frm : ResolvedFileV) (importPath directImport : String)
    (fromNpmPackage dependency : Package) (generatedRemapping : RemappingV)
    (subpath : String) (resolvedSubpath : Option String)
    (st' : ResolverState) (f : ResolvedFileV) (r : Option CarriedRemapping)
    (hR : finishNpmResolution fs st2 frm importPath directImport
        fromNpmPackage dependency generatedRemapping subpath
        resolvedSubpath = (st', .ok f r)) :
    r = some (chosenNpmRemapping directImport fromNpmPackage dependency
        generatedRemapping subpath resolvedSubpath) ∧
    ((st' = st2 ∧
        lookupA st2.files
          (snJoin2 dependency.rootSourceName (resolvedSubpath.getD subpath)) =
          some f) ∨
      (f.sourceName =
          snJoin2 dependency.rootSourceName (resolvedSubpath.getD subpath) ∧
        st'.files =
          setA st2.files
            (snJoin2 dependency.rootSourceName (resolvedSubpath.getD subpath))
            f ∧
        st'.map = st2.map ∧ st'.projectRoot = st2.projectRoot)) := by
  unfold finishNpmResolution at hR
  dsimp only at hR
  cases hlk : lookupA st2.files
      (snJoin2 dependency.rootSourceName (resolvedSubpath.getD subpath)) with
  | some ex =>
    rw [hlk] at hR
    dsimp only at hR
    rw [Prod.mk.injEq] at hR
    obtain ⟨h1, h2⟩ := hR
    injection h2 with hf hr
    subst h1
    subst hf
    subst hr
    exact ⟨rfl, Or.inl ⟨rfl, rfl⟩⟩
  | none =>
    rw [hlk] at hR
    dsimp only at hR
    cases htc : fs.getFileTrueCase dependency.rootFsPath
        (resolvedSubpath.getD subpath) with
    | none =>
      rw [htc] at hR
      dsimp only at hR
      rw [Prod.mk.injEq] at hR
      cases hR.2
    | some tc =>
      rw [htc] at hR
      dsimp only at hR
      by_cases hcc : tc = resolvedSubpath.getD subpath
      · rw [if_neg (not_not_intro hcc)] at hR
        rw [Prod.mk.injEq] at hR
        obtain ⟨h1, h2⟩ := hR
        injection h2 with hf hr
        subst h1
        subst hf
        subst hr
        exact ⟨rfl, Or.inr ⟨rfl, rfl, rfl, rfl⟩⟩
      · rw [if_pos hcc] at hR
        rw [Prod.mk.injEq] at hR
        cases hR.2

theorem finishNpmResolution_idem (fs : ResolverFs) (st2 : ResolverState)
    (frm : ResolvedFileV) (importPath directImport : String)
    (fromNpmPackage dependency : Package) (generatedRemapping : RemappingV)
    (subpath : String) (resolvedSubpath : Option String)
    (st' : ResolverState) (f : ResolvedFileV) (r : Option CarriedRemapping)
    (htab : TableOk st2.files)
    (hR : finishNpmResolution fs st2 frm importPath directImport
        fromNpmPackage dependency generatedRemapping subpath
        resolvedSubpath = (st', .ok f r)) :
    st'.map = st2.map ∧ st'.projectRoot = st2.projectRoot ∧
    lookupA st'.files f.sourceName = some f ∧ TableOk st'.files ∧
    finishNpmResolution fs st' frm importPath directImport fromNpmPackage
        dependency generatedRemapping subpath resolvedSubpath =
      (st', .ok f r) := by
  obtain ⟨hr, hcase⟩ := finishNpmResolution_inv fs st2 frm importPath
    directImport fromNpmPackage dependency generatedRemapping subpath
    resolvedSubpath st' f r hR
  cases hcase with
  | inl h =>
    obtain ⟨hst, hlk⟩ := h
    have hsn : f.sourceName =
        snJoin2 dependency.rootSourceName (resolvedSubpath.getD subpath) :=
      htab _ _ hlk
    refine ⟨by rw [hst], by rw [hst], ?_, ?_, ?_⟩
    · rw [hst, hsn]
      exact hlk
    · rw [hst]
      exact htab
    · rw [hst, finishNpmResolution_cached fs st2 frm importPath directImport
        fromNpmPackage dependency generatedRemapping subpath resolvedSubpath
        f hlk, hr]
  | inr h =>
    obtain ⟨hsn, hfiles, hmap, hroot⟩ := h
    have hlk' : lookupA st'.files f.sourceName = some f := by
      rw [hfiles, hsn]
      exact lookupA_setA_self st2.files _ f
    have htab' : TableOk st'.files := by
      rw [hfiles, ← hsn]
      exact tableOk_intern st2.files f htab
    refine ⟨hmap, hroot, hlk', htab', ?_⟩
    have hlk2 : lookupA st'.files
        (snJoin2 dependency.rootSourceName (resolvedSubpath.getD subpath)) =
        some f := by
      rw [← hsn]
      exact hlk'
    rw [finishNpmResolution_cached fs st' frm importPath directImport
      fromNpmPackage dependency generatedRemapping subpath resolvedSubpath
      f hlk2, hr]

theorem resolveImportThroughNpm_second (fs : ResolverFs) (fuel : Nat)
    (st' : ResolverState) (frm : ResolvedFileV)
    (importPath directImport : String) (parsed : NpmDirectImport)
    (FP dependency : Package) (generatedRemapping : RemappingV)
    (f : ResolvedFileV) (r : Option CarriedRemapping)
    (hparse : parseNpmDirectImport directImport = some parsed)
    (hFP : (if frm.isNpm then frm.pkg else st'.map.project) = FP)
    (hedge : lookupEdge st'.map FP.id parsed.pkgName =
      some ⟨dependency, generatedRemapping⟩)
    (hq : st'.map.queue = [])
    (hbr : (dependency.exportsPresent = true ∧ ∃ rs,
        fs.resolvePackageExports dependency.id parsed.subpath = some rs ∧
        finishNpmResolution fs st' frm importPath directImport FP dependency
          generatedRemapping parsed.subpath (some rs) = (st', .ok f r)) ∨
      (dependency.exportsPresent = false ∧
        finishNpmResolution fs st' frm importPath directImport FP dependency
          generatedRemapping parsed.subpath none = (st', .ok f r))) :
    resolveImportThroughNpm fs fuel st' frm importPath directImport =
      (st', .ok f r) := by
  unfold resolveImportThroughNpm
  rw [hparse]
  dsimp only
  rw [hFP]
  rw [resolveDep_cached fs.mapFs st'.map FP parsed.pkgName
    ⟨dependency, generatedRemapping⟩ hedge]
  dsimp only
  rw [drain_nil fs.mapFs fuel st'.map hq]
  dsimp only
  rw [if_neg (not_not_intro rfl)]
  cases hbr with
  | inl h =>
    obtain ⟨hexp, rs, hrs, hfin⟩ := h
    rw [if_pos hexp, hrs]
    exact hfin
  | inr h =>
    obtain ⟨hexp, hfin⟩ := h
    rw [if_neg (by simp [hexp])]
    exact hfin

theorem resolveImportThroughNpm_idem (fs : ResolverFs) (fuel : Nat)
    (st : ResolverState) (frm : ResolvedFileV)
    (importPath directImport : String) (st' : ResolverState)
    (f : ResolvedFileV) (r : Option CarriedRemapping)
    (htab : TableOk st.files) (hwf : MapWf st.map)
    (hq : st.map.queue = []) (hfrm : frm.pkg.id < st.map.nextId)
    (hproj : st.map.project.id < st.map.nextId)
    (hR : resolveImportThroughNpm fs fuel st frm importPath directImport =
      (st', .ok f r)) :
    st'.map.project = st.map.project ∧ st'.map.queue = [] ∧
    MapWf st'.map ∧ st.map.nextId ≤ st'.map.nextId ∧
    (∀ q, q < st.map.nextId → lookupN st'.map.ur q = lookupN st.map.ur q) ∧
    st'.projectRoot = st.projectRoot ∧
    lookupA st'.files f.sourceName = some f ∧ TableOk st'.files ∧
    resolveImportThroughNpm fs fuel st' frm importPath directImport =
      (st', .ok f r) := by
  unfold resolveImportThroughNpm at hR
  cases hparse : parseNpmDirectImport directImport with
  | none =>
    rw [hparse] at hR
    dsimp only at hR
    rw [Prod.mk.injEq] at hR
    cases hR.2
  | some parsed =>
    rw [hparse] at hR
    dsimp only at hR
    generalize hFP : (if frm.isNpm then frm.pkg else st.map.project) = FP
      at hR
    have hFPid : FP.id < st.map.nextId := by
      rw [← hFP]
      split
      · exact hfrm
      · exact hproj
    cases hres : resolveDependencyByInstallationName fs.mapFs st.map FP
        parsed.pkgName with
    | mk m1 o =>
      rw [hres] at hR
      have ED0 := evolves_resolveDep fs.mapFs st.map FP parsed.pkgName
        st.map.nextId hwf
      rw [hres] at ED0
      have ED : Evolves st.map.nextId st.map m1 := ED0
      cases o with
      | none =>
        dsimp only at hR
        rw [Prod.mk.injEq] at hR
        cases hR.2
      | some dg =>
        cases dg with
        | mk dependency generatedRemapping =>
          dsimp only at hR
          have hedge0 := resolveDep_some_edge fs.mapFs st.map FP
            parsed.pkgName dependency generatedRemapping (by rw [hres])
          rw [hres] at hedge0
          have hedge1 : lookupEdge m1 FP.id parsed.pkgName =
              some ⟨dependency, generatedRemapping⟩ := hedge0
          cases hdrain : resolveAnyRemainingRemappings fs.mapFs fuel m1 with
          | none =>
            rw [hdrain] at hR
            dsimp only at hR
            rw [Prod.mk.injEq] at hR
            cases hR.2
          | some p2 =>
            cases p2 with
            | mk m2 errs =>
              rw [hdrain] at hR
              dsimp only at hR
              by_cases herrs : errs = []
              · subst herrs
                rw [if_neg (not_not_intro rfl)] at hR
                have hQ : ∀ p ∈ m1.queue, st.map.nextId ≤ p.id := by
                  obtain ⟨d, hd, hdi⟩ := ED.queueExt
                  intro p hp
                  rw [hd, hq] at hp
                  simp only [List.nil_append] at hp
                  exact hdi p hp
                obtain ⟨w2, proj2, hn2, hq2, hur2, hedge2⟩ :=
                  drain_facts fs.mapFs fuel st.map.nextId m1 m2 [] ED.wf'
                    ED.nextIdMono hQ hdrain
                have hedge3 : lookupEdge m2 FP.id parsed.pkgName =
                    some ⟨dependency, generatedRemapping⟩ :=
                  hedge2 FP.id parsed.pkgName ⟨dependency, generatedRemapping⟩
                    hedge1
                have hproj2 : m2.project = st.map.project :=
                  proj2.trans ED.project
                have hur3 : ∀ q, q < st.map.nextId →
                    lookupN m2.ur q = lookupN st.map.ur q := by
                  intro q hlt
                  have hne : q ≠ st.map.nextId := by omega
                  exact (hur2 q hlt).trans (ED.urOther q hne)
                have htab2 : TableOk
                    ({ st with map := m2 } : ResolverState).files := htab
                cases hexp : dependency.exportsPresent with
                | true =>
                  rw [if_pos hexp] at hR
                  cases hrs : fs.resolvePackageExports dependency.id
                      parsed.subpath with
                  | none =>
                    rw [hrs] at hR
                    dsimp only at hR
                    rw [Prod.mk.injEq] at hR
                    cases hR.2
                  | some rs =>
                    rw [hrs] at hR
                    dsimp only at hR
                    obtain ⟨hmap', hroot', hlk', htab', hsecond⟩ :=
                      finishNpmResolution_idem fs { st with map := m2 } frm
                        importPath directImport FP dependency
                        generatedRemapping parsed.subpath (some rs) st' f r
                        htab2 hR
                    have hstmap : st'.map = m2 := hmap'
                    have hstroot : st'.projectRoot = st.projectRoot := hroot'
                    refine ⟨by rw [hstmap]; exact hproj2,
                      by rw [hstmap]; exact hq2,
                      by rw [hstmap]; exact w2,
                      by rw [hstmap]; exact hn2,
                      by intro q hlt; rw [hstmap]; exact hur3 q hlt,
                      hstroot, hlk', htab', ?_⟩
                    refine resolveImportThroughNpm_second fs fuel st' frm
                      importPath directImport parsed FP dependency
                      generatedRemapping f r hparse ?_ ?_ ?_ ?_
                    · rw [hstmap, hproj2]
                      exact hFP
                    · rw [hstmap]
                      exact hedge3
                    · rw [hstmap]
                      exact hq2
                    · exact Or.inl ⟨hexp, rs, hrs, hsecond⟩
                | false =>
                  rw [if_neg (by simp [hexp])] at hR
                  obtain ⟨hmap', hroot', hlk', htab', hsecond⟩ :=
                    finishNpmResolution_idem fs { st with map := m2 } frm
                      importPath directImport FP dependency
                      generatedRemapping parsed.subpath none st' f r
                      htab2 hR
                  have hstmap : st'.map = m2 := hmap'
                  have hstroot : st'.projectRoot = st.projectRoot := hroot'
                  refine ⟨by rw [hstmap]; exact hproj2,
                    by rw [hstmap]; exact hq2,
                    by rw [hstmap]; exact w2,
                    by rw [hstmap]; exact hn2,
                    by intro q hlt; rw [hstmap]; exact hur3 q hlt,
                    hstroot, hlk', htab', ?_⟩
                  refine resolveImportThroughNpm_second fs fuel st' frm
                    importPath directImport parsed FP dependency
                    generatedRemapping f r hparse ?_ ?_ ?_ ?_
                  · rw [hstmap, hproj2]
                    exact hFP
                  · rw [hstmap]
                    exact hedge3
                  · rw [hstmap]
                    exact hq2
                  · exact Or.inr ⟨hexp, hsecond⟩
              · rw [if_pos herrs] at hR
                rw [Prod.mk.injEq] at hR
                cases hR.2

/-- C9: idempotent resolution.  If `#resolveImport` succeeds on a
well-formed resolver state (intern table keyed by source names, map
invariant, drained queue, `from` file's package and the project already
allocated), then calling it a second time with the same arguments on the
resulting state succeeds with the very same resolved file and remapping,
and that file is the object stored in the `#resolvedFileBySourceName`
intern table. -/
theorem c9_resolve_import_idempotent (fs : ResolverFs) (fuel : Nat)
    (st : ResolverState) (frm : ResolvedFileV) (importPath : String)
    (f : ResolvedFileV) (r : Option CarriedRemapping)
    (htab : TableOk st.files) (hwf : MapWf st.map)
    (hq : st.map.queue = []) (hfrm : frm.pkg.id < st.map.nextId)
    (hproj : st.map.project.id < st.map.nextId)
    (h1 : (resolveImport fs fuel st frm importPath).2 = .ok f r) :
    (resolveImport fs fuel (resolveImport fs fuel st frm importPath).1 frm
        importPath).2 = .ok f r ∧
    lookupA (resolveImport fs fuel st frm importPath).1.files f.sourceName =
      some f := by
  by_cases hbs : strContainsChar importPath '\\' = true
  · rw [show resolveImport fs fuel st frm importPath =
        (st, .err (.IMPORT_WITH_WINDOWS_PATH_SEPARATORS frm.fsPath
          importPath)) from by
      unfold resolveImport
      rw [if_pos hbs]] at h1
    simp at h1
  · have hbs' : strContainsChar importPath '\\' = false := by
      simpa using hbs
    by_cases hrel : (strStartsWith importPath "./" ||
        strStartsWith importPath "../") = true
    · exfalso
      unfold resolveImport at h1
      rw [if_neg (by simp [hbs'])] at h1
      dsimp only at h1
      rw [hrel] at h1
      simp only [Bool.true_and, if_true] at h1
      split at h1
      · simp at h1
      · split at h1 <;> simp at h1
    · have hrel' : (strStartsWith importPath "./" ||
          strStartsWith importPath "../") = false := by
        simpa using hrel
      unfold resolveImport at h1
      rw [if_neg (by simp [hbs'])] at h1
      dsimp only at h1
      rw [hrel'] at h1
      simp only [Bool.false_and, Bool.false_eq_true, if_false] at h1
      cases hsel : selectBestRemapping frm.sourceName importPath
          (getUserRemappings st.map frm.pkg) with
      | some rm =>
        rw [hsel] at h1
        dsimp only at h1
        cases hRU : resolveUserRemappedImport fs st frm importPath
            importPath rm with
        | mk st1 out =>
          rw [hRU] at h1
          dsimp only at h1
          subst h1
          obtain ⟨hmap1, hlk1, htab1, hsecond⟩ :=
            resolveUserRemappedImport_idem fs st frm importPath importPath
              rm st1 f r htab hRU
          have hRI : resolveImport fs fuel st frm importPath =
              (st1, .ok f r) := by
            unfold resolveImport
            rw [if_neg (by simp [hbs'])]
            dsimp only
            rw [hrel']
            simp only [Bool.false_and, Bool.false_eq_true, if_false]
            rw [hsel]
            exact hRU
          have hRI2 : resolveImport fs fuel st1 frm importPath =
              (st1, .ok f r) := by
            unfold resolveImport
            rw [if_neg (by simp [hbs'])]
            dsimp only
            rw [hrel']
            simp only [Bool.false_and, Bool.false_eq_true, if_false]
            rw [hmap1, hsel]
            exact hsecond
          constructor
          · rw [hRI]
            show (resolveImport fs fuel st1 frm importPath).2 = .ok f r
            rw [hRI2]
          · rw [hRI]
            show lookupA st1.files f.sourceName = some f
            exact hlk1
      | none =>
        rw [hsel] at h1
        dsimp only at h1
        cases hNP : resolveImportThroughNpm fs fuel st frm importPath
            importPath with
        | mk st1 out =>
          rw [hNP] at h1
          dsimp only at h1
          cases out with
          | ok f0 r0 =>
            dsimp only at h1
            injection h1 with hf0 hr0
            subst f0
            subst r0
            obtain ⟨hp1, hq1, hw1, hn1, hur1, hroot1, hlk1, htab1,
              hsecond⟩ :=
              resolveImportThroughNpm_idem fs fuel st frm importPath
                importPath st1 f r htab hwf hq hfrm hproj hNP
            have hRI : resolveImport fs fuel st frm importPath =
                (st1, .ok f r) := by
              unfold resolveImport
              rw [if_neg (by simp [hbs'])]
              dsimp only
              rw [hrel']
              simp only [Bool.false_and, Bool.false_eq_true, if_false]
              rw [hsel, hNP]
            have hsel1 : selectBestRemapping frm.sourceName importPath
                (getUserRemappings st1.map frm.pkg) = none := by
              have hug : getUserRemappings st1.map frm.pkg =
                  getUserRemappings st.map frm.pkg := by
                unfold getUserRemappings
                rw [hur1 frm.pkg.id hfrm]
              rw [hug, hsel]
            have hRI2 : resolveImport fs fuel st1 frm importPath =
                (st1, .ok f r) := by
              unfold resolveImport
              rw [if_neg (by simp [hbs'])]
              dsimp only
              rw [hrel']
              simp only [Bool.false_and, Bool.false_eq_true, if_false]
              rw [hsel1, hsecond]
            constructor
            · rw [hRI]
              show (resolveImport fs fuel st1 frm importPath).2 = .ok f r
              rw [hRI2]
            · rw [hRI]
              show lookupA st1.files f.sourceName = some f
              exact hlk1
          | err e =>
            dsimp only at h1
            split at h1
            · split at h1 <;> simp at h1
            · simp at h1
          | placeholderRelativeImport =>
            dsimp only at h1
            cases h1
          | thrown msg =>
            dsimp only at h1
            cases h1
          | modelFuelOut =>
            dsimp only at h1
            cases h1

def urW : ResolvedUserRemapping :=
  ⟨"project/", "foo/", "project/bar/", "foo/=bar/", "/p/remappings.txt", none⟩

def mapW9 : MapState := { mapW with ur := [(0, [urW])] }

def stW9 : ResolverState := { stW with map := mapW9 }

def frmW9 : ResolvedFileV :=
  ⟨50, "project/X.sol", "/p/X.sol", ⟨"", [], []⟩, projW, false⟩

/-- Witness for C9: resolving `foo/A.sol` twice under the user remapping
`foo/=bar/` yields the same interned file both times. -/
theorem c9_witness :
    (resolveImport fsW 2 (resolveImport fsW 2 stW9 frmW9 "foo/A.sol").1
        frmW9 "foo/A.sol").2 =
      .ok ⟨0, "project/bar/A.sol", "/p/project/bar/A.sol", ⟨"", [], []⟩,
        projW, false⟩ (some (.user urW)) ∧
    lookupA (resolveImport fsW 2 stW9 frmW9 "foo/A.sol").1.files
        "project/bar/A.sol" =
      some ⟨0, "project/bar/A.sol", "/p/project/bar/A.sol", ⟨"", [], []⟩,
        projW, false⟩ :=
  c9_resolve_import_idempotent fsW 2 stW9 frmW9 "foo/A.sol"
    ⟨0, "project/bar/A.sol", "/p/project/bar/A.sol", ⟨"", [], []⟩, projW,
      false⟩ (some (.user urW))
    (fun _ v h => Option.noConfusion h)
    (by
      intro pid l h
      by_cases h0 : (0 : Nat) = pid
      · rw [← h0]
        decide
      · simp [lookupN, h0] at h)
    rfl (by decide) (by decide) (by decide)

